import Mathlib

/-!
Verification development for the voirc repository.

Shallow embedding of the core data model and operations of the source tree
(src/pow.rs, src/magic_link.rs, src/irc_server.rs, src/irc_client.rs,
src/persistence.rs, src/state.rs) together with proofs and refutations of
the specification's testable properties.

Modelling conventions:
* Rust machine integers are Nat with explicit bounds checks where overflow
  matters (u8 arithmetic in `leading_zero_bits`, the `as u32` cast in
  `mine_nick`).
* Byte slices are `List Nat` (each element a byte value).
* Fallible or panicking code returns `Option`; `none` models a panic.
* External library functions (SHA-256 from `ring`, ed25519 from
  `ed25519_dalek`, JSON string serialization from `serde_json`) are taken
  as parameters of the definitions that call them; everything written in
  the repository itself is translated concretely.
-/

namespace Voirc

/-! ### pow.rs -/

/-- `u8::leading_zeros` for a byte value `b < 256`. -/
def u8LeadingZeros (b : Nat) : Nat :=
  if 128 ≤ b then 0
  else if 64 ≤ b then 1
  else if 32 ≤ b then 2
  else if 16 ≤ b then 3
  else if 8 ≤ b then 4
  else if 4 ≤ b then 5
  else if 2 ≤ b then 6
  else if 1 ≤ b then 7
  else 8

/-- Loop body of `leading_zero_bits` (pow.rs lines 55-66).  The Rust
accumulator is a `u8`; `count += 8` on a zero byte is checked arithmetic in
debug builds, so an addition that leaves the `0..=255` range is modelled as
`none` (panic). -/
def lzbGo (count : Nat) : List Nat → Option Nat
  | [] => some count
  | b :: rest =>
    if b = 0 then
      if count + 8 ≤ 255 then lzbGo (count + 8) rest else none
    else
      if count + u8LeadingZeros b ≤ 255 then some (count + u8LeadingZeros b) else none

/-- `pow::leading_zero_bits`: count the leading zero bits of a hash,
with the source's `u8` accumulator semantics. -/
def leading_zero_bits (hash : List Nat) : Option Nat :=
  lzbGo 0 hash

/-- `pow::check_difficulty` (pow.rs lines 70-76).  `hashFn` stands for
`pow::nick_hash`, i.e. SHA256(nick_bytes ++ pubkey_hex_bytes) computed by
the external `ring` library. -/
def check_difficulty (hashFn : String → String → List Nat)
    (nick pubkey_hex : String) (required_bits : Nat) : Option Bool :=
  if required_bits = 0 then some true
  else (leading_zero_bits (hashFn nick pubkey_hex)).map (fun b => decide (required_bits ≤ b))

/-- `pow::verify_nick` (pow.rs lines 80-82): identical to `check_difficulty`. -/
def verify_nick (hashFn : String → String → List Nat)
    (nick pubkey_hex : String) (required_bits : Nat) : Option Bool :=
  check_difficulty hashFn nick pubkey_hex required_bits

/-- Lower-case hex digit for `n < 16`. -/
def hexDigit (n : Nat) : Char :=
  if n < 10 then Char.ofNat (48 + n) else Char.ofNat (87 + n)

/-- Lower-case hex digits of `n`, most significant first; the fuel is an
upper bound on the digit count so that the recursion is structural. -/
def natToHexAux : Nat → Nat → List Char
  | 0, _ => []
  | fuel + 1, n =>
    if n < 16 then [hexDigit n]
    else natToHexAux fuel (n / 16) ++ [hexDigit (n % 16)]

def natToHex (n : Nat) : List Char := natToHexAux (n + 1) n

/-- Rust `format!("{:04x}", n)`: lower-case hex, zero-padded to at least
four digits. -/
def hexPad4 (n : Nat) : String :=
  let ds := natToHex n
  String.mk (List.replicate (4 - ds.length) '0' ++ ds)

/-- `pow::MinedNick` (pow.rs lines 90-99).  `nonce` is the `u32` field,
hence stored modulo 2^32. -/
structure MinedNick where
  nick : String
  nonce : Nat
  bits : Nat
  attempts : Nat
  deriving Repr, DecidableEq

/-- The `for nonce in 0u64..max_attempts` loop of `pow::mine_nick`
(pow.rs lines 128-141), with `fuel = max_attempts - nonce` so that the
recursion is structural.  Outer `none` models a panic inside
`leading_zero_bits`; `some none` is the loop running out of attempts. -/
def mineLoop (hashFn : String → String → List Nat) (base_name pubkey_hex : String)
    (required_bits : Nat) : Nat → Nat → Option (Option MinedNick)
  | 0, _ => some none
  | fuel + 1, nonce =>
    let candidate := base_name ++ "#" ++ hexPad4 nonce
    match leading_zero_bits (hashFn candidate pubkey_hex) with
    | none => none
    | some bits =>
      if required_bits ≤ bits then
        some (some { nick := candidate, nonce := nonce % 2 ^ 32, bits := bits,
                     attempts := nonce + 1 })
      else
        mineLoop hashFn base_name pubkey_hex required_bits fuel (nonce + 1)

/-- `pow::mine_nick` (pow.rs lines 112-142). -/
def mine_nick (hashFn : String → String → List Nat) (base_name pubkey_hex : String)
    (required_bits max_attempts : Nat) : Option (Option MinedNick) :=
  if required_bits = 0 then
    some (some { nick := base_name, nonce := 0, bits := 0, attempts := 0 })
  else
    mineLoop hashFn base_name pubkey_hex required_bits max_attempts 0

/-! ### magic_link.rs

The descriptor wire format is JSON wrapped in standard base64 behind a
`voirc://` scheme.  `serde_json` string (de)serialization and the base64
codec are external libraries forming an injective transport, so the wire
document is modelled as a JSON tree: `to_magic_link` produces the tree that
`serde_json::to_string` would print, and `from_magic_link` consumes the
tree that `serde_json::from_str` would hand to the `RawConnectionInfo`
deserializer after `base64` decoding succeeds. -/

inductive Json where
  | str (s : String)
  | num (n : Nat)
  | arr (xs : List Json)
  | obj (fields : List (String × Json))

/-- `magic_link::ConnectionInfo` (magic_link.rs lines 21-28). -/
structure ConnectionInfo where
  host : String
  port : Nat
  channels : List String
  cert_fingerprint : Option String
  relay_port : Option Nat
  deriving Repr, DecidableEq

/-- `magic_link::RawConnectionInfo` (magic_link.rs lines 5-19): every field
carries `#[serde(default)]`. -/
structure RawConnectionInfo where
  host : String
  port : Nat
  channels : List String
  channel : Option String
  cert_fingerprint : Option String
  relay_port : Option Nat
  deriving Repr, DecidableEq

/-- Serialization of `WireFormat` (magic_link.rs lines 30-39): fields in
declaration order, the two options dropped when `None` via
`skip_serializing_if`. -/
def to_magic_link (c : ConnectionInfo) : Json :=
  Json.obj
    ([("host", Json.str c.host), ("port", Json.num c.port),
      ("channels", Json.arr (c.channels.map Json.str))]
      ++ (match c.cert_fingerprint with
          | some f => [("cert_fingerprint", Json.str f)]
          | none => [])
      ++ (match c.relay_port with
          | some p => [("relay_port", Json.num p)]
          | none => []))

def asStr : Json → Option String
  | .str s => some s
  | _ => none

/-- Deserialize a `u16` field: numeric and in range. -/
def asU16 : Json → Option Nat
  | .num n => if n < 65536 then some n else none
  | _ => none

/-- Deserialize a sequence element by element, failing on the first
non-string entry. -/
def asStrEach : List Json → Option (List String)
  | [] => some []
  | x :: xs => do
    let y ← asStr x
    let ys ← asStrEach xs
    pure (y :: ys)

def asStrList : Json → Option (List String)
  | .arr xs => asStrEach xs
  | _ => none

/-- One `#[serde(default)]` field: absent keys fall back to the default,
present keys must deserialize at their declared type. -/
def jsonField (fields : List (String × Json)) (k : String)
    (dec : Json → Option α) (dflt : α) : Option α :=
  match fields.lookup k with
  | none => some dflt
  | some v => dec v

/-- The `RawConnectionInfo` deserializer.  Defaults: empty string, 0,
empty list, `None`, `None`, `None`. -/
def parseRaw : Json → Option RawConnectionInfo
  | .obj fields => do
    let host ← jsonField fields "host" asStr ""
    let port ← jsonField fields "port" asU16 0
    let channels ← jsonField fields "channels" asStrList []
    let channel ← jsonField fields "channel" (fun j => (asStr j).map some) none
    let cert ← jsonField fields "cert_fingerprint" (fun j => (asStr j).map some) none
    let relay ← jsonField fields "relay_port" (fun j => (asU16 j).map some) none
    some ⟨host, port, channels, channel, cert, relay⟩
  | _ => none

/-- `ConnectionInfo::from_magic_link` (magic_link.rs lines 69-92) after the
transport layer: the channel fallback chain `channels` / legacy singular
`channel` / `["#general"]`. -/
def from_magic_link (j : Json) : Option ConnectionInfo := do
  let raw ← parseRaw j
  let channels :=
    if raw.channels.isEmpty then
      match raw.channel with
      | some ch => [ch]
      | none => ["#general"]
    else raw.channels
  some ⟨raw.host, raw.port, channels, raw.cert_fingerprint, raw.relay_port⟩

/-- Whether the serialized wire object carries a given key. -/
def jHasKey (j : Json) (k : String) : Bool :=
  match j with
  | .obj fields => (fields.lookup k).isSome
  | _ => false

/-! ### Association-list counterparts of the Rust `HashMap`s -/

/-- `HashMap::insert`: overwrite the binding if the key is present,
otherwise add it. -/
def insertA [DecidableEq κ] (k : κ) (v : α) : List (κ × α) → List (κ × α)
  | [] => [(k, v)]
  | (k', v') :: rest => if k = k' then (k, v) :: rest else (k', v') :: insertA k v rest

/-- Keep the first occurrence of every element (the order a
`HashSet::insert`-guarded traversal emits them); fuel-structured with any
fuel at least the list length. -/
def dedupKeepFirstAux [DecidableEq α] : Nat → List α → List α
  | 0, _ => []
  | _, [] => []
  | fuel + 1, x :: xs => x :: dedupKeepFirstAux fuel (xs.filter (fun y => y ≠ x))

def dedupKeepFirst [DecidableEq α] (l : List α) : List α :=
  dedupKeepFirstAux l.length l

/-! ### irc_server.rs -/

/-- Hex value of one character (the `hex` crate accepts both cases). -/
def hexVal (c : Char) : Option Nat :=
  if '0' ≤ c ∧ c ≤ '9' then some (c.toNat - 48)
  else if 'a' ≤ c ∧ c ≤ 'f' then some (c.toNat - 87)
  else if 'A' ≤ c ∧ c ≤ 'F' then some (c.toNat - 55)
  else none

/-- `hex::decode`: pairs of hex digits; odd length or a non-hex character
is an error. -/
def hexDecode : List Char → Option (List Nat)
  | [] => some []
  | [_] => none
  | c1 :: c2 :: rest => do
    let h ← hexVal c1
    let l ← hexVal c2
    let tail ← hexDecode rest
    pure ((16 * h + l) :: tail)

def hexDecodeStr (s : String) : Option (List Nat) :=
  hexDecode s.data

/-- Server-side per-connection record (irc_server.rs lines 19-25); the
outbound `tx` channel is modelled by the `Reply` lists the handlers
return. -/
structure ClientRec where
  nick : Option String
  pubkey : Option String
  authenticated : Bool
  deriving Repr, DecidableEq

/-- `irc_server::ServerState` (irc_server.rs lines 27-35); socket addresses
are numbered. -/
structure ServerState where
  clients : List (Nat × ClientRec)
  channels : List (String × List Nat)
  nick_pubkeys : List (String × String)
  pow_required_bits : Nat
  deriving Repr, DecidableEq

/-- `ServerState::try_bind_nick_pubkey` (irc_server.rs lines 57-65). -/
def try_bind_nick_pubkey (s : ServerState) (nick pubkey : String) : Bool × ServerState :=
  match s.nick_pubkeys.lookup nick with
  | some existing =>
    if existing ≠ pubkey then (false, s)
    else (true, { s with nick_pubkeys := insertA nick pubkey s.nick_pubkeys })
  | none => (true, { s with nick_pubkeys := insertA nick pubkey s.nick_pubkeys })

/-- `clients.get_mut(&addr)` followed by a field update. -/
def updClient (s : ServerState) (addr : Nat) (f : ClientRec → ClientRec) : ServerState :=
  { s with clients := s.clients.map (fun p => if p.1 = addr then (p.1, f p.2) else p) }

/-- Failure reasons of `handle_hello`. -/
inductive Reason where
  | invalid_pubkey
  | invalid_signature
  | nick_mismatch
  | pow_too_weak (required : Nat)
  deriving Repr, DecidableEq

/-- Messages the server pushes to outbound queues, one constructor per
`format!` site involved in NICK / VOIRC_HELLO handling. -/
inductive Reply where
  | nickInUse (nick : String)
  | helloFailed (nick : String) (r : Reason)
  | helloOk (nick : String) (bits : Nat)
  | pubkeyBroadcast (dest : Nat) (nick pubkey : String)
  deriving Repr, DecidableEq

/-- The `NICK` arm of `process_command` (irc_server.rs lines 219-237). -/
def nickCmd (s : ServerState) (addr : Nat) (new_nick : String) : ServerState × List Reply :=
  let client_pubkey := (s.clients.lookup addr).bind (fun c => c.pubkey)
  match s.nick_pubkeys.lookup new_nick with
  | some bound_key =>
    if client_pubkey ≠ some bound_key then (s, [.nickInUse new_nick])
    else (updClient s addr (fun c => { c with nick := some new_nick }), [])
  | none => (updClient s addr (fun c => { c with nick := some new_nick }), [])

/-- External cryptographic primitives used by `handle_hello`:
`hashFn` is `pow::nick_hash` (SHA-256 via `ring`), `keyOk` is
`VerifyingKey::from_bytes(..).is_ok()` on the decoded pubkey, and
`sigVerify pubkey_hex nick sig_hex` is the dalek Ed25519 verification of
the signature over the nick bytes. -/
structure HelloFns where
  hashFn : String → String → List Nat
  keyOk : String → Bool
  sigVerify : String → String → String → Bool

/-- The `VOIRC_PUBKEY` broadcast at the end of `handle_hello`
(irc_server.rs lines 498-510): every member of a channel shared with
`addr`, other than `addr` itself, notified at most once. -/
def helloBroadcast (s : ServerState) (addr : Nat) (nick pubkey : String) : List Reply :=
  let seq :=
    (((s.channels.filter (fun p => addr ∈ p.2)).map (fun p => p.2)).flatten).filter
      (fun m => m ≠ addr)
  (dedupKeepFirst seq).filterMap
    (fun m => if (s.clients.lookup m).isSome then some (Reply.pubkeyBroadcast m nick pubkey)
              else none)

/-- `irc_server::handle_hello` (irc_server.rs lines 411-512) on an already
split `VOIRC_HELLO:<nick>:<pubkey_hex>:<sig_hex>` payload (a payload with
fewer than three fields returns before touching any state).  `none` models
a panic inside `leading_zero_bits`. -/
def handle_hello (fns : HelloFns) (s : ServerState) (addr : Nat)
    (hello_nick pubkey_hex sig_hex : String) : Option (ServerState × List Reply) :=
  match hexDecodeStr pubkey_hex with
  | none => some (s, [.helloFailed hello_nick .invalid_pubkey])
  | some pubkey_bytes =>
  if pubkey_bytes.length ≠ 32 then some (s, [.helloFailed hello_nick .invalid_pubkey]) else
  match hexDecodeStr sig_hex with
  | none => some (s, [.helloFailed hello_nick .invalid_signature])
  | some sig_bytes =>
  if sig_bytes.length ≠ 64 then some (s, [.helloFailed hello_nick .invalid_signature]) else
  if ¬ fns.keyOk pubkey_hex then some (s, [.helloFailed hello_nick .invalid_pubkey]) else
  if ¬ fns.sigVerify pubkey_hex hello_nick sig_hex then
    some (s, [.helloFailed hello_nick .invalid_signature]) else
  if ((s.clients.lookup addr).bind (fun c => c.nick)) ≠ some hello_nick then
    some (s, [.helloFailed hello_nick .nick_mismatch]) else
  let required := s.pow_required_bits
  match check_difficulty fns.hashFn hello_nick pubkey_hex required with
  | none => none
  | some ok =>
  if ¬ ok then some (s, [.helloFailed hello_nick (.pow_too_weak required)]) else
  match try_bind_nick_pubkey s hello_nick pubkey_hex with
  | (false, s1) => some (s1, [.nickInUse hello_nick])
  | (true, s1) =>
  let s2 := updClient s1 addr
    (fun c => { c with pubkey := some pubkey_hex, authenticated := true })
  match leading_zero_bits (fns.hashFn hello_nick pubkey_hex) with
  | none => none
  | some actual_bits =>
  some (s2, Reply.helloOk hello_nick actual_bits :: helloBroadcast s2 addr hello_nick pubkey_hex)

/-! ### config.rs / state.rs -/

/-- `config::Role` (config.rs lines 66-70). -/
inductive Role where
  | Host
  | Mod
  | Peer
  deriving Repr, DecidableEq

/-- `config::ConnState` (config.rs lines 9-15). -/
inductive ConnState where
  | Connecting
  | Connected
  | NatIssue
  | Relayed
  | Failed
  deriving Repr, DecidableEq

/-- `state::PeerState` (state.rs lines 11-19); `Instant`s are milliseconds
on a monotone clock. -/
structure PeerState where
  nickname : String
  connected : Bool
  speaking : Bool
  role : Role
  conn_state : ConnState
  conn_started : Option Nat
  deriving Repr, DecidableEq

/-- The `peer_states` map of `state::AppState`. -/
abbrev PeerStates := List (String × PeerState)

/-- `AppState::update_peer_state` (state.rs lines 109-133). -/
def update_peer_state (states : PeerStates) (nick : String)
    (connected speaking : Bool) : PeerStates :=
  let prev := match states.lookup nick with
    | some s => (s.role, s.conn_state, s.conn_started)
    | none => (Role.Peer, ConnState.Connecting, none)
  let conn_state := if connected then ConnState.Connected else prev.2.1
  insertA nick
    { nickname := nick, connected := connected, speaking := speaking,
      role := prev.1, conn_state := conn_state, conn_started := prev.2.2 } states

/-- `AppState::set_peer_connecting` (state.rs lines 135-150). -/
def set_peer_connecting (states : PeerStates) (nick : String) (now : Nat) : PeerStates :=
  match states.lookup nick with
  | some _ =>
    states.map (fun p =>
      if p.1 = nick then
        (p.1, { p.2 with conn_state := ConnState.Connecting, conn_started := some now })
      else p)
  | none =>
    insertA nick
      { nickname := nick, connected := false, speaking := false,
        role := Role.Peer, conn_state := ConnState.Connecting, conn_started := some now }
      states

/-- `AppState::set_peer_conn_state` (state.rs lines 152-160). -/
def set_peer_conn_state (states : PeerStates) (nick : String) (st : ConnState) : PeerStates :=
  states.map (fun p =>
    if p.1 = nick then
      (p.1, { p.2 with conn_state := st,
                       connected := if st = ConnState.Connected then true else p.2.connected })
    else p)

/-- `AppState::set_peer_role` (state.rs lines 162-176). -/
def set_peer_role (states : PeerStates) (nick : String) (role : Role) : PeerStates :=
  match states.lookup nick with
  | some _ =>
    states.map (fun p => if p.1 = nick then (p.1, { p.2 with role := role }) else p)
  | none =>
    insertA nick
      { nickname := nick, connected := false, speaking := false,
        role := role, conn_state := ConnState.Connecting, conn_started := none }
      states

/-- `AppState::refresh_speaking` (state.rs lines 197-216): `last` is the
`last_audio` map, `now` the current instant in milliseconds. -/
def refresh_speaking (states : PeerStates) (last : List (String × Nat))
    (now : Nat) : PeerStates :=
  states.map (fun p =>
    let speaking := match last.lookup p.1 with
      | some t => decide (now - t < 400)
      | none => false
    let conn_state :=
      if p.2.conn_state = ConnState.Connecting then
        match p.2.conn_started with
        | some started => if 10000 < now - started then ConnState.NatIssue else p.2.conn_state
        | none => p.2.conn_state
      else p.2.conn_state
    (p.1, { p.2 with speaking := speaking, conn_state := conn_state }))

/-- The spec invariant `connected == true` implies `conn_state == Connected`
over every record of the peer-state map. -/
def peerInv (states : PeerStates) : Prop :=
  ∀ p ∈ states, p.2.connected = true → p.2.conn_state = ConnState.Connected

instance (states : PeerStates) : Decidable (peerInv states) := by
  unfold peerInv
  infer_instance

/-! ### persistence.rs -/

/-- `persistence::SignedMessage` (persistence.rs lines 33-43). -/
structure SignedMessage where
  id : String
  author : String
  pubkey : String
  channel : String
  content : String
  timestamp : Int
  chain_hash : String
  signature : String
  deriving Repr, DecidableEq

/-- `persistence::VerifyResult` (persistence.rs lines 187-193). -/
inductive VerifyResult where
  | Ok
  | InvalidSignature
  | ChainMismatch (expected got : String)
  | FutureTimestamp
  deriving Repr, DecidableEq

/-- `VerifyResult::is_suspicious` (persistence.rs lines 200-202). -/
def VerifyResult.is_suspicious : VerifyResult → Bool
  | .ChainMismatch _ _ => true
  | .FutureTimestamp => true
  | _ => false

/-- `MessageLog::channel_path` (persistence.rs lines 300-303). -/
def channel_path (channel : String) : String :=
  String.mk (channel.data.map (fun c =>
    if c ∈ ['/', '\\', ':', '*', '?', '"', '<', '>', '|'] then '_' else c)) ++ ".jsonl"

/-- `persistence::MessageLog`: the in-memory channel map plus the on-disk
JSON-lines files keyed by `channel_path` (each stored message standing for
the line `serde_json::to_string` writes for it). -/
structure MessageLog where
  mem : List (String × List SignedMessage)
  disk : List (String × List SignedMessage)
  deriving Repr, DecidableEq

/-- Append one value to the list bound to `k` (creating the binding when
absent): an `OpenOptions::append` write, and also `entry(k).or_default()`
followed by `push`. -/
def pushA (k : String) (v : α) : List (String × List α) → List (String × List α)
  | [] => [(k, [v])]
  | (k', vs) :: rest => if k = k' then (k', vs ++ [v]) :: rest else (k', vs) :: pushA k v rest

/-- `MessageLog::persist_message` (persistence.rs lines 305-314). -/
def persist_message (log : MessageLog) (msg : SignedMessage) : MessageLog :=
  { log with disk := pushA (channel_path msg.channel) msg log.disk }

/-- Insert into a timestamp-sorted list after every element with a smaller
or equal key. -/
def insertSorted (m : SignedMessage) : List SignedMessage → List SignedMessage
  | [] => [m]
  | x :: xs => if m.timestamp < x.timestamp then m :: x :: xs else x :: insertSorted m xs

/-- `sort_by_key(|m| m.timestamp)`: a stable sort, realized as left-to-right
stable insertion. -/
def sortByTs (l : List SignedMessage) : List SignedMessage :=
  l.foldl (fun acc m => insertSorted m acc) []

/-- `MessageLog::append` (persistence.rs lines 248-265): persist to disk
first, then deduplicate by id in memory, then push and re-sort. -/
def MessageLog.append (log : MessageLog) (msg : SignedMessage) : MessageLog :=
  let log1 := persist_message log msg
  let list := (log1.mem.lookup msg.channel).getD []
  if list.any (fun m => m.id = msg.id) then log1
  else { log1 with mem := insertA msg.channel (sortByTs (list ++ [msg])) log1.mem }

/-! ### `String::from_utf8_lossy`

`IrcClient::send_webrtc_signal` pushes each 400-byte chunk through
`String::from_utf8_lossy` before putting it on the wire, so the standard
library's lossy decoder is modelled at byte level: valid scalar sequences
are copied, every maximal invalid subpart (and a truncated sequence at the
end of input) becomes the UTF-8 bytes of U+FFFD. -/

/-- The three UTF-8 bytes of U+FFFD REPLACEMENT CHARACTER. -/
def repFFFD : List Nat := [0xEF, 0xBF, 0xBD]

/-- A UTF-8 continuation byte. -/
def cont (b : Nat) : Bool := 0x80 ≤ b ∧ b ≤ 0xBF

/-- Lower bound of the second byte admitted after lead byte `b`. -/
def sndLo (b : Nat) : Nat :=
  if b = 0xE0 then 0xA0 else if b = 0xF0 then 0x90 else 0x80

/-- Upper bound of the second byte admitted after lead byte `b`. -/
def sndHi (b : Nat) : Nat :=
  if b = 0xED then 0x9F else if b = 0xF4 then 0x8F else 0xBF

/-- Second-byte check for lead byte `b`. -/
def sndOK (b c : Nat) : Bool := sndLo b ≤ c ∧ c ≤ sndHi b

/-- Outcome of examining the head of the input, mirroring one step of the
standard library's UTF-8 validation: a valid scalar sequence of `k` bytes,
an invalid maximal subpart of `k` bytes (replaced by one U+FFFD), a
truncated sequence at the end of input (also one U+FFFD), or exhausted
input. -/
inductive Utf8Step where
  | done
  | ok (k : Nat)
  | err (k : Nat)
  | trunc
  deriving Repr, DecidableEq

/-- One step of `core::str` UTF-8 validation, with the error lengths
`from_utf8_lossy` uses for the maximal-subpart substitution. -/
def utf8Classify : List Nat → Utf8Step
  | [] => .done
  | b :: rest =>
    if b ≤ 0x7F then .ok 1
    else if 0xC2 ≤ b ∧ b ≤ 0xDF then
      match rest with
      | [] => .trunc
      | c1 :: _ => if cont c1 then .ok 2 else .err 1
    else if 0xE0 ≤ b ∧ b ≤ 0xEF then
      match rest with
      | [] => .trunc
      | c1 :: rest1 =>
        if sndOK b c1 then
          match rest1 with
          | [] => .trunc
          | c2 :: _ => if cont c2 then .ok 3 else .err 2
        else .err 1
    else if 0xF0 ≤ b ∧ b ≤ 0xF4 then
      match rest with
      | [] => .trunc
      | c1 :: rest1 =>
        if sndOK b c1 then
          match rest1 with
          | [] => .trunc
          | c2 :: rest2 =>
            if cont c2 then
              match rest2 with
              | [] => .trunc
              | c3 :: _ => if cont c3 then .ok 4 else .err 3
            else .err 2
        else .err 1
    else .err 1

/-- `String::from_utf8_lossy` over byte lists: copy valid sequences,
replace each maximal invalid subpart (and a truncated final sequence) with
U+FFFD.  Every step consumes at least one byte, so fuel equal to the input
length suffices. -/
def utf8LossyAux : Nat → List Nat → List Nat
  | 0, _ => []
  | fuel + 1, l =>
    match utf8Classify l with
    | .done => []
    | .ok k => l.take k ++ utf8LossyAux fuel (l.drop k)
    | .err k => repFFFD ++ utf8LossyAux fuel (l.drop k)
    | .trunc => repFFFD

def utf8Lossy (l : List Nat) : List Nat := utf8LossyAux l.length l

/-- UTF-8 validity of a byte list (`str::from_utf8(..).is_ok()`). -/
def utf8ValidAux : Nat → List Nat → Bool
  | 0, _ => true
  | fuel + 1, l =>
    match utf8Classify l with
    | .done => true
    | .ok k => utf8ValidAux fuel (l.drop k)
    | _ => false

def utf8Valid (l : List Nat) : Bool := utf8ValidAux l.length l

/-! ### irc_client.rs — fragmenter / reassembler (FRAG)

Chunk payloads are byte lists (the bytes of the Rust strings involved);
concatenating the received chunk strings concatenates exactly these byte
lists. -/

/-- `irc_client::FragmentBuffer` (irc_client.rs lines 34-38).  The
`last_update` instant only feeds the 60-second `retain` sweep performed in
`handle_message`, outside `handle_fragment`, and is omitted. -/
structure FragmentBuffer where
  parts : List (Nat × List Nat)
  total : Nat
  deriving Repr, DecidableEq

/-- The fragment map, keyed by `format!("{}:{}", sender, msg_id)`. -/
abbrev FragState := List ((String × String) × FragmentBuffer)

/-- One parsed `WRTC:[<seq>/<total>|<id>]<chunk>` message. -/
structure Frag where
  seq : Nat
  total : Nat
  msg_id : String
  chunk : List Nat
  deriving Repr, DecidableEq

/-- `HashMap::remove`. -/
def removeA [DecidableEq κ] (k : κ) : List (κ × α) → List (κ × α)
  | [] => []
  | (k', v) :: rest => if k = k' then rest else (k', v) :: removeA k rest

/-- `HandlerContext::handle_fragment` (irc_client.rs lines 532-569) after
the header has been split off the text: look the `(sender, id)` buffer up
(creating it with this fragment's `total` as announced total), store the
chunk under its sequence number, and on `parts.len() == total` deliver the
chunks concatenated in sequence order `1..=total` and drop the buffer. -/
def handle_fragment (st : FragState) (sender : String) (f : Frag) :
    FragState × Option (List Nat) :=
  let key := (sender, f.msg_id)
  let buf := match st.lookup key with
    | some b => b
    | none => { parts := [], total := f.total }
  let buf' : FragmentBuffer := { buf with parts := insertA f.seq f.chunk buf.parts }
  if buf'.parts.length = buf'.total then
    let full := ((List.range' 1 buf'.total).map (fun i => (buf'.parts.lookup i).getD [])).flatten
    (removeA key st, some full)
  else
    (insertA key buf' st, none)

/-- The shape of the fragment map while a single `(sender, id)` message is
in flight: empty before the first fragment, afterwards exactly one buffer
holding the chunks received so far. -/
def fragStOf (sender id : String) (N : Nat) (P : List (Nat × List Nat)) : FragState :=
  if P.isEmpty then [] else [((sender, id), { parts := P, total := N })]

/-- Feed a list of fragments from one sender through `handle_fragment`,
collecting the delivered `WebRtcSignal` payloads in order. -/
def runFrags (sender : String) : FragState → List Frag → FragState × List (List Nat)
  | st, [] => (st, [])
  | st, f :: fs =>
    match handle_fragment st sender f with
    | (st1, none) => runFrags sender st1 fs
    | (st1, some p) =>
      let (st2, ps) := runFrags sender st1 fs
      (st2, p :: ps)

/-- `payload.as_bytes().chunks(400)`, fuel-structured with any fuel at
least the list length. -/
def chunks400Aux : Nat → List Nat → List (List Nat)
  | 0, _ => []
  | _, [] => []
  | fuel + 1, b :: rest => ((b :: rest).take 400) :: chunks400Aux fuel ((b :: rest).drop 400)

def chunks400 (l : List Nat) : List (List Nat) := chunks400Aux l.length l

/-- `IrcClient::send_webrtc_signal` (irc_client.rs lines 222-237): the
fragments emitted for one payload, `msg_id` standing for the random
8-character id.  Chunk `i` (0-based) goes out with sequence `i + 1` and
announced total `⌈len/400⌉`, its bytes filtered through
`String::from_utf8_lossy`. -/
def send_webrtc_signal (msg_id : String) (payload : List Nat) : List Frag :=
  let total_chunks := (payload.length + 399) / 400
  (chunks400 payload).enum.map (fun p =>
    { seq := p.1 + 1, total := total_chunks, msg_id := msg_id,
      chunk := utf8Lossy p.2 })

/-! ### irc_client.rs — PRIVMSG dispatcher -/

/-- `irc_client::IrcEvent` (irc_client.rs lines 20-32). -/
inductive Event where
  | UserJoined (nick : String) (role : Role)
  | UserLeft (nick : String)
  | WebRtcSignal (sender : String) (payload : String)
  | ChatMessage (channel sender text : String)
  | ModAction (sender action target : String)
  | PowRequirementChanged (bits : Nat)
  | PowTooWeak (required_bits : Nat)
  deriving Repr, DecidableEq

/-- `persistence::SyncRequest` (persistence.rs lines 47-50). -/
structure SyncRequest where
  channel : String
  since : Int
  deriving Repr, DecidableEq

/-- `persistence::SyncResponse` (persistence.rs lines 52-56). -/
structure SyncResponse where
  channel : String
  messages : List SignedMessage
  deriving Repr, DecidableEq

/-- `MessageLog::messages_since` (persistence.rs lines 268-273). -/
def messages_since (log : MessageLog) (channel : String) (since : Int) :
    List SignedMessage :=
  ((log.mem.lookup channel).getD []).filter (fun m => since < m.timestamp)

/-- Per-message step for `process_sync_response` once the trust-anchor
check passed (persistence.rs lines 351-370).  `verifyMsg` is
`SignedMessage::verify(None)`, whose ed25519 and wall-clock parts live in
external libraries. -/
def syncVerifyStep (verifyMsg : SignedMessage → VerifyResult)
    (acc : MessageLog × Nat × Nat) (msg : SignedMessage) : MessageLog × Nat × Nat :=
  match verifyMsg msg with
  | .InvalidSignature => (acc.1, acc.2.1, acc.2.2 + 1)
  | _ => (acc.1.append msg, acc.2.1 + 1, acc.2.2)

/-- `persistence::process_sync_response` (persistence.rs lines 329-374):
returns the log together with the `(accepted, rejected)` counters. -/
def process_sync_response (verifyMsg : SignedMessage → VerifyResult)
    (log : MessageLog) (resp : SyncResponse)
    (trusted_keys : List (String × String)) : MessageLog × Nat × Nat :=
  resp.messages.foldl
    (fun acc msg =>
      match trusted_keys.lookup msg.author with
      | some known_key =>
        if known_key ≠ msg.pubkey then (acc.1, acc.2.1, acc.2.2 + 1)
        else syncVerifyStep verifyMsg acc msg
      | none => syncVerifyStep verifyMsg acc msg)
    (log, 0, 0)

/-- `Role::from_str` (config.rs lines 92-98). -/
def Role.from_str (s : String) : Role :=
  if s = "host" then Role.Host
  else if s = "mod" then Role.Mod
  else Role.Peer

/-- Modelled from the spec: `AppState::pubkey_for_nick`, called from
irc_client.rs but defined nowhere under src/.  Per §4.3 a peer's pubkey is
"bound locally" by the `VOIRC_PUBKEY` / `VOIRC_HELLO` handlers; the local
binding map is a nick → pubkey-hex map and this is its lookup. -/
def pubkey_for_nick (m : List (String × String)) (nick : String) : Option String :=
  m.lookup nick

/-- Modelled from the spec: `AppState::register_peer_pubkey`, called from
irc_client.rs but defined nowhere under src/.  It binds a peer's pubkey
locally and reports a conflict (irc_client.rs line 403 logs "Pubkey
conflict" when it returns false), mirroring the server-side binding rule:
a nick already bound to a different key is refused, otherwise the binding
is stored. -/
def register_peer_pubkey (m : List (String × String)) (nick pubkey : String) :
    Bool × List (String × String) :=
  match m.lookup nick with
  | some existing => if existing ≠ pubkey then (false, m) else (true, m)
  | none => (true, insertA nick pubkey m)

/-- `str::starts_with` / `strip_prefix`, expressed on the character
lists. -/
def dropPfx (p s : String) : Option String :=
  if p.data.isPrefixOf s.data then some (String.mk (s.data.drop p.data.length)) else none

/-- `str::splitn(2, ':')` when it yields exactly two parts. -/
def splitOnceL (sep : Char) : List Char → Option (List Char × List Char)
  | [] => none
  | c :: rest =>
    if c = sep then some ([], rest)
    else (splitOnceL sep rest).map (fun p => (c :: p.1, p.2))

def splitOnce (sep : Char) (s : String) : Option (String × String) :=
  (splitOnceL sep s.data).map (fun p => (String.mk p.1, String.mk p.2))

/-- `str::splitn(3, ':')` when it yields exactly three parts. -/
def split3 (s : String) : Option (String × String × String) := do
  let p1 ← splitOnce ':' s
  let p2 ← splitOnce ':' p1.2
  pure (p1.1, p2.1, p2.2)

/-- `str::parse::<u8>()` on a trimmed decimal string. -/
def parseU8 (s : String) : Option Nat :=
  let t := (s.trim).data
  if t ≠ [] ∧ t.all (fun c => '0' ≤ c ∧ c ≤ '9') then
    let n := t.foldl (fun a c => 10 * a + (c.toNat - 48)) 0
    if n ≤ 255 then some n else none
  else none

/-- The client-side state `HandlerContext::handle_privmsg` can touch,
with fragment-buffer state `σ` abstract (the fragmenter is modelled
separately at byte level). -/
structure ClientState (σ : Type) where
  peer_pubkeys : List (String × String)
  peer_states : PeerStates
  message_log : MessageLog
  frags : σ
  deriving Repr, DecidableEq

/-- External collaborators of `handle_privmsg`: the fragment handler over
the abstract buffer state, `serde_json` parsers, `SignedMessage::verify`
and the standalone `verify_hello` ed25519 check. -/
structure ClientFns (σ : Type) where
  hfrag : σ → String → String → σ × List Event
  parseSigned : String → Option SignedMessage
  verifyMsg : SignedMessage → VerifyResult
  parseSyncReq : String → Option SyncRequest
  parseSyncResp : String → Option SyncResponse
  verifyHello : String → String → String → Bool

/-- Result of one `handle_privmsg` call: new state, emitted events, and
the `VOIRC_SYNC_RESP` replies sent on the outbound queue (target paired
with the response serialized into the message). -/
abbrev PrivmsgOut (σ : Type) := ClientState σ × List Event × List (String × SyncResponse)

/-- The `SIGNED:` acceptance path (irc_client.rs lines 500-515). -/
def signedAccept {σ : Type} (fns : ClientFns σ) (st : ClientState σ)
    (nick target : String) (msg : SignedMessage) : PrivmsgOut σ :=
  let result := fns.verifyMsg msg
  if result = .InvalidSignature then (st, [], [])
  else
    let display := if result.is_suspicious then "[?] " ++ msg.content else msg.content
    ({ st with message_log := st.message_log.append msg },
     [.ChatMessage target nick display], [])

/-- `HandlerContext::handle_privmsg` (irc_client.rs lines 392-526), branch
for branch in source order: `VOIRC_PUBKEY`, `VOIRC_POW_REQUIRED`,
`VOIRC_HELLO`, then the pubkey-gated `WRTC`, `VOIRC_ROLE`, `VOIRC_MOD`,
`VOIRC_SYNC_REQ`, `VOIRC_SYNC_RESP`, then `SIGNED`, then plain chat.
`AppState::trusted_keys_snapshot` (declared nowhere under src/) is
modelled from the spec as a snapshot of the local nick → pubkey binding
map, per §4.5 "pubkey-matches-known-nick if a trust anchor exists". -/
def handle_privmsg {σ : Type} (fns : ClientFns σ) (st : ClientState σ)
    (nick target text : String) : PrivmsgOut σ :=
  match dropPfx "VOIRC_PUBKEY:" text with
  | some rest =>
    (match splitOnce ':' rest with
     | some p =>
       ({ st with peer_pubkeys := (register_peer_pubkey st.peer_pubkeys p.1 p.2).2 }, [], [])
     | none => (st, [], []))
  | none =>
  match dropPfx "VOIRC_POW_REQUIRED:" text with
  | some rest =>
    (match parseU8 rest with
     | some bits => (st, [.PowRequirementChanged bits], [])
     | none => (st, [], []))
  | none =>
  match dropPfx "VOIRC_HELLO:" text with
  | some rest =>
    (match split3 rest with
     | some p =>
       if fns.verifyHello p.1 p.2.1 p.2.2 then
         ({ st with
              peer_pubkeys := (register_peer_pubkey st.peer_pubkeys p.1 p.2.1).2 }, [], [])
       else (st, [], [])
     | none => (st, [], []))
  | none =>
  match dropPfx "WRTC:" text with
  | some _ =>
    if (pubkey_for_nick st.peer_pubkeys nick).isSome then
      let fr := fns.hfrag st.frags nick text
      ({ st with frags := fr.1 }, fr.2, [])
    else (st, [], [])
  | none =>
  match dropPfx "VOIRC_ROLE:" text with
  | some role_str =>
    if (pubkey_for_nick st.peer_pubkeys nick).isSome then
      ({ st with
           peer_states := set_peer_role st.peer_states nick (Role.from_str role_str.trim) },
       [], [])
    else (st, [], [])
  | none =>
  match dropPfx "VOIRC_MOD:" text with
  | some rest =>
    if (pubkey_for_nick st.peer_pubkeys nick).isSome then
      match splitOnce ':' rest with
      | some p => (st, [.ModAction nick p.1 p.2], [])
      | none => (st, [], [])
    else (st, [], [])
  | none =>
  match dropPfx "VOIRC_SYNC_REQ:" text with
  | some rest =>
    if (pubkey_for_nick st.peer_pubkeys nick).isSome then
      match fns.parseSyncReq rest with
      | some req =>
        (st, [], [(target, { channel := req.channel,
                             messages := messages_since st.message_log req.channel req.since })])
      | none => (st, [], [])
    else (st, [], [])
  | none =>
  match dropPfx "VOIRC_SYNC_RESP:" text with
  | some rest =>
    if (pubkey_for_nick st.peer_pubkeys nick).isSome then
      match fns.parseSyncResp rest with
      | some resp =>
        ({ st with
             message_log :=
               (process_sync_response fns.verifyMsg st.message_log resp st.peer_pubkeys).1 },
         [], [])
      | none => (st, [], [])
    else (st, [], [])
  | none =>
  match dropPfx "SIGNED:" text with
  | some rest =>
    (match fns.parseSigned rest with
     | some msg =>
       (match pubkey_for_nick st.peer_pubkeys nick with
        | some kp => if kp ≠ msg.pubkey then (st, [], []) else signedAccept fns st nick target msg
        | none => signedAccept fns st nick target msg)
     | none => (st, [], []))
  | none => (st, [.ChatMessage target nick text], [])

/-! ### Concrete instantiations

Closed sample values used to instantiate the theorems below at concrete
inputs.  The constant functions stand in for the external cryptographic
primitives: `hashHiW` behaves like a hash with 248 leading zero bits,
`hashLoW` like one with none. -/

def hashHiW : String → String → List Nat := fun _ _ => List.replicate 31 0 ++ [255]

def hashLoW : String → String → List Nat := fun _ _ => List.replicate 32 255

def helloFnsW : HelloFns :=
  { hashFn := hashLoW, keyOk := fun _ => true, sigVerify := fun _ _ _ => true }

/-- 64 hex zeros: a well-formed 32-byte pubkey encoding. -/
def pkHexW : String := String.mk (List.replicate 64 '0')

/-- 128 hex zeros: a well-formed 64-byte signature encoding. -/
def sigHexW : String := String.mk (List.replicate 128 '0')

def serverPowW : ServerState :=
  { clients := [(0, { nick := some "a", pubkey := none, authenticated := false })],
    channels := [], nick_pubkeys := [], pow_required_bits := 8 }

def serverBindW : ServerState :=
  { clients := [(0, { nick := some "bob", pubkey := none, authenticated := false })],
    channels := [], nick_pubkeys := [("bob", "11")], pow_required_bits := 0 }

def signedMsgW : SignedMessage :=
  { id := "id1", author := "mallory", pubkey := "pk", channel := "#general",
    content := "hi", timestamp := 5, chain_hash := "ch", signature := "sg" }

def clientFnsW : ClientFns Unit :=
  { hfrag := fun s _ _ => (s, []),
    parseSigned := fun _ => some signedMsgW,
    verifyMsg := fun _ => .Ok,
    parseSyncReq := fun _ => none,
    parseSyncResp := fun _ => none,
    verifyHello := fun _ _ _ => false }

def clientStW : ClientState Unit :=
  { peer_pubkeys := [], peer_states := [],
    message_log := { mem := [], disk := [] }, frags := () }

def emptyLogW : MessageLog := { mem := [], disk := [] }

/-- 399 ASCII bytes followed by the two UTF-8 bytes of U+00E9: the
multi-byte character straddles the 400-byte chunk boundary. -/
def payloadBadW : List Nat := List.replicate 399 97 ++ [195, 169]

def connW : ConnectionInfo :=
  { host := "example.com", port := 6667, channels := ["#general"],
    cert_fingerprint := some "fp", relay_port := some 6668 }

end Voirc

namespace Voirc

/-! ### Association-list and sorting lemmas -/

theorem lookup_none_of_not_mem_keys [DecidableEq κ] [BEq κ] [LawfulBEq κ] {k : κ}
    {l : List (κ × α)} (h : k ∉ l.map Prod.fst) : l.lookup k = none := by
  induction l with
  | nil => simp [List.lookup]
  | cons p rest ih =>
    simp only [List.map_cons, List.mem_cons] at h
    push_neg at h
    have hb : (k == p.1) = false := beq_eq_false_iff_ne.mpr h.1
    simp [List.lookup, hb, ih h.2]

theorem lookup_removeA_nodup [DecidableEq κ] [BEq κ] [LawfulBEq κ] {k : κ}
    {l : List (κ × α)} (h : (l.map Prod.fst).Nodup) : (removeA k l).lookup k = none := by
  induction l with
  | nil => simp [removeA, List.lookup]
  | cons p rest ih =>
    simp only [List.map_cons, List.nodup_cons] at h
    by_cases hk : k = p.1
    · subst hk
      simp only [removeA, if_pos rfl]
      exact lookup_none_of_not_mem_keys h.1
    · have hb : (k == p.1) = false := beq_eq_false_iff_ne.mpr hk
      simp [removeA, hk, List.lookup, hb, ih h.2]

theorem mem_insertSorted_of_mem {x m : SignedMessage} {l : List SignedMessage}
    (h : x ∈ l) : x ∈ insertSorted m l := by
  induction l with
  | nil => simp at h
  | cons y rest ih =>
    rcases List.mem_cons.mp h with rfl | h'
    · by_cases hlt : m.timestamp < x.timestamp <;> simp [insertSorted, hlt]
    · by_cases hlt : m.timestamp < y.timestamp <;> simp [insertSorted, hlt, ih h', h']

theorem self_mem_insertSorted (m : SignedMessage) (l : List SignedMessage) :
    m ∈ insertSorted m l := by
  induction l with
  | nil => simp [insertSorted]
  | cons y rest ih =>
    by_cases hlt : m.timestamp < y.timestamp <;> simp [insertSorted, hlt, ih]

theorem mem_foldl_insertSorted {x : SignedMessage} :
    ∀ (l : List SignedMessage) (acc : List SignedMessage),
    (x ∈ acc ∨ x ∈ l) → x ∈ l.foldl (fun acc m => insertSorted m acc) acc := by
  intro l
  induction l with
  | nil => intro acc h; simpa using h.resolve_right (by simp)
  | cons m rest ih =>
    intro acc h
    simp only [List.foldl_cons]
    refine ih _ ?_
    rcases h with h | h
    · exact Or.inl (mem_insertSorted_of_mem h)
    · rcases List.mem_cons.mp h with rfl | h'
      · exact Or.inl (self_mem_insertSorted _ _)
      · exact Or.inr h'

theorem mem_sortByTs {x : SignedMessage} {l : List SignedMessage} (h : x ∈ l) :
    x ∈ sortByTs l :=
  mem_foldl_insertSorted l [] (Or.inr h)

theorem lookup_insertA_self [DecidableEq κ] [BEq κ] [LawfulBEq κ] (k : κ) (v : α)
    (l : List (κ × α)) : (insertA k v l).lookup k = some v := by
  induction l with
  | nil => simp [insertA, List.lookup]
  | cons p rest ih =>
    by_cases h : k = p.1
    · simp [insertA, h, List.lookup]
    · have hb : (k == p.1) = false := beq_eq_false_iff_ne.mpr h
      simp [insertA, h, List.lookup, hb, ih]

theorem lookup_insertA_ne [DecidableEq κ] [BEq κ] [LawfulBEq κ] {k k' : κ} (v : α)
    (l : List (κ × α)) (h : k' ≠ k) : (insertA k v l).lookup k' = l.lookup k' := by
  have hb : (k' == k) = false := beq_eq_false_iff_ne.mpr h
  induction l with
  | nil => simp [insertA, List.lookup, hb]
  | cons p rest ih =>
    by_cases hk : k = p.1
    · subst hk
      simp [insertA, List.lookup, hb]
    · simp [insertA, hk, List.lookup, ih]

theorem mem_insertA [DecidableEq κ] {k : κ} {v : α} {l : List (κ × α)} {p : κ × α}
    (h : p ∈ insertA k v l) : p = (k, v) ∨ p ∈ l := by
  induction l with
  | nil => simpa [insertA] using h
  | cons q rest ih =>
    by_cases hk : k = q.1
    · simp [insertA, hk] at h
      rcases h with h | h
      · exact Or.inl (by simp [h, hk])
      · exact Or.inr (List.mem_cons_of_mem _ h)
    · simp [insertA, hk] at h
      rcases h with h | h
      · exact Or.inr (by simp [h])
      · rcases ih h with h' | h'
        · exact Or.inl h'
        · exact Or.inr (List.mem_cons_of_mem _ h')

/-! ### C10 -/

/-- C10: the claim asserts `leading_zero_bits` is total on every 32-byte
hash, the all-zero hash included.  The code is not: its `u8` accumulator
reaches 256 on the all-zero input, which does not fit in a `u8` — checked
arithmetic panics there (and release-mode wrapping would return 0, not
256), so the all-zero hash is mapped to `none` by the model.  The
repository's own test (pow.rs line 192) expects 32 for this input, which
the code can never produce either. -/
theorem lzb_all_zero_overflow : leading_zero_bits (List.replicate 32 0) = none := by decide

/-! ### C3 -/

theorem mineLoop_sound (hashFn : String → String → List Nat) (base pk : String)
    (D : Nat) : ∀ (fuel nonce : Nat) (m : MinedNick),
    mineLoop hashFn base pk D fuel nonce = some (some m) →
    ∃ n, nonce ≤ n ∧ m.nick = base ++ "#" ++ hexPad4 n ∧ m.nonce = n % 2 ^ 32 ∧
      m.attempts = n + 1 ∧
      ∃ b, leading_zero_bits (hashFn m.nick pk) = some b ∧ m.bits = b ∧ D ≤ b := by
  intro fuel
  induction fuel with
  | zero => intro nonce m h; simp [mineLoop] at h
  | succ fuel ih =>
    intro nonce m h
    simp only [mineLoop] at h
    cases hbits : leading_zero_bits (hashFn (base ++ "#" ++ hexPad4 nonce) pk) with
    | none => rw [hbits] at h; exact absurd h (by simp)
    | some bits =>
      rw [hbits] at h
      by_cases hok : D ≤ bits
      · simp only [if_pos hok, Option.some.injEq] at h
        refine ⟨nonce, le_refl _, ?_, ?_, ?_, bits, ?_, ?_, hok⟩ <;> simp [← h, hbits]
      · simp only [if_neg hok] at h
        obtain ⟨n, hn, rest⟩ := ih (nonce + 1) m h
        exact ⟨n, by omega, rest⟩

/-- C3: whenever `mine_nick` returns a `MinedNick`, `verify_nick` accepts
it at the same difficulty; at difficulty 0 the result is the base name
with zero attempts, and at positive difficulty the nick is the base name,
a `#`, and the at-least-4-digit lower-hex encoding of the winning nonce,
with `attempts = nonce + 1` (the `nonce` field itself being the winning
nonce cast to `u32`). -/
theorem mine_nick_correct (hashFn : String → String → List Nat) (base pk : String)
    (D maxAtt : Nat) (m : MinedNick)
    (h : mine_nick hashFn base pk D maxAtt = some (some m)) :
    verify_nick hashFn m.nick pk D = some true ∧
    (D = 0 → m.nick = base ∧ m.attempts = 0) ∧
    (0 < D → ∃ n, m.nick = base ++ "#" ++ hexPad4 n ∧ m.nonce = n % 2 ^ 32 ∧
      m.attempts = n + 1) := by
  by_cases hD : D = 0
  · subst hD
    simp only [mine_nick, if_true, eq_self_iff_true, Option.some.injEq] at h
    subst h
    refine ⟨?_, fun _ => ⟨rfl, rfl⟩, fun h0 => absurd h0 (by omega)⟩
    simp [verify_nick, check_difficulty]
  · simp only [mine_nick, if_neg hD] at h
    obtain ⟨n, _, hnick, hnonce, hatt, b, hb, hbits, hge⟩ :=
      mineLoop_sound hashFn base pk D maxAtt 0 m h
    refine ⟨?_, fun h0 => absurd h0 hD, fun _ => ⟨n, hnick, hnonce, hatt⟩⟩
    simp [verify_nick, check_difficulty, hD, hb, hge]

/-- Witness for C3 at a concrete mining run: difficulty 8, ten attempts,
a hash with 248 leading zero bits. -/
theorem mine_nick_correct_witness :
    verify_nick hashHiW "alice#0000" "pk" 8 = some true ∧
    (8 = 0 → "alice#0000" = "alice" ∧ (1 : Nat) = 0) ∧
    (0 < 8 → ∃ n, "alice#0000" = "alice" ++ "#" ++ hexPad4 n ∧
      (0 : Nat) = n % 2 ^ 32 ∧ (1 : Nat) = n + 1) :=
  mine_nick_correct hashHiW "alice" "pk" 8 10
    { nick := "alice#0000", nonce := 0, bits := 248, attempts := 1 } (by decide)

/-! ### C9 -/

/-- C9 counterexample: the claim fails at a concrete reachable state.
`update_peer_state "p" true false` yields the record
`{connected := true, conn_state := Connected}`, and
`set_peer_conn_state "p" Failed` then sets `conn_state := Failed` without
clearing `connected` (state.rs lines 152-160 only ever set `connected`
to `true`), leaving a record with `connected = true` and
`conn_state ≠ Connected`. -/
theorem peer_connected_invariant_broken :
    ¬ peerInv (set_peer_conn_state (update_peer_state [] "p" true false) "p"
        ConnState.Failed) := by decide

/-- C9 amended: the invariant `connected → conn_state = Connected` is
preserved by `update_peer_state`, `set_peer_role`, `refresh_speaking`, and
by `set_peer_conn_state` when the new state is `Connected`; it is not
preserved by `set_peer_conn_state` with a non-`Connected` state nor by
`set_peer_connecting`, which leave `connected` untouched. -/
theorem peer_connected_invariant_preserved (states : PeerStates)
    (last : List (String × Nat)) (now : Nat) (nick : String) (cn sp : Bool)
    (role : Role) (h : peerInv states) :
    peerInv (update_peer_state states nick cn sp) ∧
    peerInv (set_peer_role states nick role) ∧
    peerInv (refresh_speaking states last now) ∧
    peerInv (set_peer_conn_state states nick ConnState.Connected) := by
  refine ⟨?_, ?_, ?_, ?_⟩
  · intro p hp hc
    simp only [update_peer_state] at hp
    rcases mem_insertA hp with heq | hmem
    · subst heq
      simp only at hc
      subst hc
      simp
    · exact h p hmem hc
  · intro p hp hc
    simp only [set_peer_role] at hp
    cases hlk : states.lookup nick with
    | some q =>
      rw [hlk] at hp
      rcases List.mem_map.mp hp with ⟨q, hq, rfl⟩
      by_cases hq1 : q.1 = nick
      · simp only [hq1, if_pos rfl] at hc ⊢
        exact h q hq hc
      · simp only [if_neg hq1] at hc ⊢
        exact h q hq hc
    | none =>
      rw [hlk] at hp
      rcases mem_insertA hp with heq | hmem
      · subst heq
        simp at hc
      · exact h p hmem hc
  · intro p hp hc
    simp only [refresh_speaking] at hp
    rcases List.mem_map.mp hp with ⟨q, hq, rfl⟩
    simp only at hc ⊢
    have hq2 := h q hq hc
    simp [hq2]
  · intro p hp hc
    simp only [set_peer_conn_state] at hp
    rcases List.mem_map.mp hp with ⟨q, hq, rfl⟩
    by_cases hq1 : q.1 = nick
    · simp [hq1]
    · simp only [if_neg hq1] at hc ⊢
      exact h q hq hc

/-- Witness for C9's amended preservation statement at a concrete state. -/
theorem peer_connected_invariant_preserved_witness :
    peerInv (update_peer_state
      [("q", { nickname := "q", connected := true, speaking := false,
               role := Role.Peer, conn_state := ConnState.Connected,
               conn_started := none })] "q" true true) ∧
    peerInv (set_peer_role
      [("q", { nickname := "q", connected := true, speaking := false,
               role := Role.Peer, conn_state := ConnState.Connected,
               conn_started := none })] "q" Role.Host) ∧
    peerInv (refresh_speaking
      [("q", { nickname := "q", connected := true, speaking := false,
               role := Role.Peer, conn_state := ConnState.Connected,
               conn_started := none })] [] 0) ∧
    peerInv (set_peer_conn_state
      [("q", { nickname := "q", connected := true, speaking := false,
               role := Role.Peer, conn_state := ConnState.Connected,
               conn_started := none })] "q" ConnState.Connected) :=
  peer_connected_invariant_preserved
    [("q", { nickname := "q", connected := true, speaking := false,
             role := Role.Peer, conn_state := ConnState.Connected,
             conn_started := none })] [] 0 "q" true true Role.Host (by decide)

/-! ### C5 -/

/-- After an `append`, the in-memory list of the message's channel holds
an entry with the message's id. -/
theorem append_mem_has_id (log : MessageLog) (msg : SignedMessage) :
    (((log.append msg).mem.lookup msg.channel).getD []).any
      (fun m => m.id = msg.id) = true := by
  simp only [MessageLog.append]
  split
  · next hdup => exact hdup
  · next hdup =>
      simp only
      rw [lookup_insertA_self]
      simp only [Option.getD_some, List.any_eq_true]
      exact ⟨msg, mem_sortByTs (by simp), by simp⟩

/-- C5 counterexample: appending the same message twice does not leave the
log unchanged — `persist_message` runs before the dedup check
(persistence.rs lines 248-251), so the on-disk file gains a second copy of
the line. -/
theorem log_append_duplicate_disk_line :
    (emptyLogW.append signedMsgW).append signedMsgW ≠ emptyLogW.append signedMsgW := by
  decide

/-- C5 amended: appending an already-present message a second time leaves
the in-memory log unchanged (dedup by id), but the on-disk JSON-lines file
still receives one more copy of the serialized message. -/
theorem log_append_idempotent_memory (log : MessageLog) (msg : SignedMessage) :
    ((log.append msg).append msg).mem = (log.append msg).mem ∧
    ((log.append msg).append msg).disk =
      pushA (channel_path msg.channel) msg (log.append msg).disk := by
  have hid := append_mem_has_id log msg
  have h2 : ∀ L : MessageLog,
      ((L.mem.lookup msg.channel).getD []).any (fun m => m.id = msg.id) = true →
      L.append msg = persist_message L msg := by
    intro L hL
    have hL' : (((persist_message L msg).mem.lookup msg.channel).getD []).any
        (fun m => m.id = msg.id) = true := hL
    simp only [MessageLog.append, hL', if_true]
  constructor
  · rw [h2 _ hid]
    rfl
  · rw [h2 _ hid]
    rfl


/-! ### C7 -/

/-- C7 counterexample: re-delivering the fragments of an already-completed
`(sender, id)` pair is not a no-op — the completed buffer was removed, so
the same single-fragment message delivered twice emits the `WebRtcSignal`
payload twice. -/
theorem fragment_redelivery_emits_again :
    (runFrags "s" [] [{ seq := 1, total := 1, msg_id := "m1", chunk := [104] }]).2 =
      [[104]] ∧
    (runFrags "s" [] [{ seq := 1, total := 1, msg_id := "m1", chunk := [104] },
                      { seq := 1, total := 1, msg_id := "m1", chunk := [104] }]).2 =
      [[104], [104]] := by decide

/-- C7 amended: completing a reassembly removes the `(sender, id)` buffer
(irc_client.rs line 562), so the pair retains no completed-state memory:
a re-delivered fragment starts from an empty buffer again, emitting
nothing as long as fewer than its announced total have re-arrived — but a
full re-delivery (see the counterexample) emits the payload again. -/
theorem fragment_complete_removes_buffer (st : FragState) (sender : String)
    (f : Frag) (st' : FragState) (out : List Nat)
    (hnd : (st.map Prod.fst).Nodup)
    (h : handle_fragment st sender f = (st', some out)) :
    st'.lookup (sender, f.msg_id) = none ∧
    ∀ g : Frag, g.msg_id = f.msg_id → 2 ≤ g.total →
      (handle_fragment st' sender g).2 = none := by
  simp only [handle_fragment] at h
  split at h
  · next hc =>
      injection h with h1 h2
      subst h1
      have hnone : (removeA (sender, f.msg_id) st).lookup (sender, f.msg_id) = none :=
        lookup_removeA_nodup hnd
      refine ⟨hnone, ?_⟩
      intro g hg ht
      have hne : ¬ ((insertA g.seq g.chunk
          ({ parts := [], total := g.total } : FragmentBuffer).parts).length = g.total) := by
        simp only [insertA, List.length_cons, List.length_nil]
        omega
      simp only [handle_fragment, hg, hnone, hne, if_false]
  · next hc =>
      injection h with h1 h2
      exact absurd h2 (by simp)

/-- Witness for C7's amended statement at a concrete completing call. -/
theorem fragment_complete_removes_buffer_witness :
    (([] : FragState).lookup ("s", "m1") = none) ∧
    (handle_fragment ([] : FragState) "s"
      { seq := 2, total := 2, msg_id := "m1", chunk := [105] }).2 = none := by
  have h := fragment_complete_removes_buffer []
    "s" { seq := 1, total := 1, msg_id := "m1", chunk := [104] }
    [] [104] (by decide) (by decide)
  exact ⟨h.1, h.2 { seq := 2, total := 2, msg_id := "m1", chunk := [105] } rfl (by decide)⟩

/-! ### irc_server.rs lemmas -/

theorem mem_helloBroadcast {s : ServerState} {addr : Nat} {nick pk : String} {r : Reply}
    (h : r ∈ helloBroadcast s addr nick pk) :
    ∃ m, r = Reply.pubkeyBroadcast m nick pk := by
  unfold helloBroadcast at h
  rcases List.mem_filterMap.mp h with ⟨m, _, hsome⟩
  by_cases hs : (s.clients.lookup m).isSome
  · rw [if_pos hs] at hsome
    exact ⟨m, (Option.some.injEq _ _ ▸ hsome).symm⟩
  · rw [if_neg hs] at hsome
    exact absurd hsome (by simp)

/-- Exhaustive shape of a non-panicking `handle_hello` run: either the
binding table is untouched and the reply is a single `HELLO_FAILED` or 433
line, or the bind succeeded and the table gained exactly the
`hello_nick → pubkey_hex` binding. -/
theorem handle_hello_cases (fns : HelloFns) (s : ServerState) (addr : Nat)
    (n pk sig : String) (s' : ServerState) (rs : List Reply)
    (h : handle_hello fns s addr n pk sig = some (s', rs)) :
    (s'.nick_pubkeys = s.nick_pubkeys ∧
      ((∃ reason, rs = [Reply.helloFailed n reason]) ∨ rs = [Reply.nickInUse n])) ∨
    ((try_bind_nick_pubkey s n pk).1 = true ∧
      s'.nick_pubkeys = insertA n pk s.nick_pubkeys ∧
      ∃ bits tail, rs = Reply.helloOk n bits :: tail) := by
  simp only [handle_hello] at h
  split at h
  · cases h
    exact Or.inl ⟨rfl, Or.inl ⟨_, rfl⟩⟩
  · split at h
    · cases h
      exact Or.inl ⟨rfl, Or.inl ⟨_, rfl⟩⟩
    · split at h
      · cases h
        exact Or.inl ⟨rfl, Or.inl ⟨_, rfl⟩⟩
      · split at h
        · cases h
          exact Or.inl ⟨rfl, Or.inl ⟨_, rfl⟩⟩
        · split at h
          · cases h
            exact Or.inl ⟨rfl, Or.inl ⟨_, rfl⟩⟩
          · split at h
            · cases h
              exact Or.inl ⟨rfl, Or.inl ⟨_, rfl⟩⟩
            · split at h
              · cases h
                exact Or.inl ⟨rfl, Or.inl ⟨_, rfl⟩⟩
              · split at h
                · exact absurd h (by simp)
                · split at h
                  · cases h
                    exact Or.inl ⟨rfl, Or.inl ⟨_, rfl⟩⟩
                  · split at h
                    · next s1 heq =>
                        injection h with h'
                        injection h' with hA hB
                        subst hA
                        subst hB
                        have hs1 : s1 = s := by
                          unfold try_bind_nick_pubkey at heq
                          split at heq
                          · split at heq
                            · injection heq with hb hs
                              exact hs.symm
                            · injection heq with hb hs
                              exact absurd hb (by simp)
                          · injection heq with hb hs
                            exact absurd hb (by simp)
                        subst hs1
                        exact Or.inl ⟨rfl, Or.inr rfl⟩
                    · next s1 heq =>
                        split at h
                        · exact absurd h (by simp)
                        · injection h with h'
                          injection h' with hA hB
                          subst hA
                          subst hB
                          have h1 : (try_bind_nick_pubkey s n pk).1 = true := by
                            rw [heq]
                          have hs1 : s1.nick_pubkeys = insertA n pk s.nick_pubkeys := by
                            unfold try_bind_nick_pubkey at heq
                            split at heq
                            · split at heq
                              · injection heq with hb hs
                                exact absurd hb (by simp)
                              · injection heq with hb hs
                                rw [← hs]
                            · injection heq with hb hs
                              rw [← hs]
                          exact Or.inr ⟨h1, hs1, ⟨_, _, rfl⟩⟩

/-! ### C8 -/

/-- C8: when `handle_hello` rejects a client with `pow_too_weak:K`, the
hash of (nick, pubkey-hex) has strictly fewer than `K` leading zero bits,
and `K` is exactly the server's `pow_required_bits` at the time of the
check.  (`hashFn` is `pow::nick_hash`, i.e.
SHA256(nick_bytes ++ pubkey_hex_bytes).) -/
theorem pow_rejection_sound (fns : HelloFns) (s : ServerState) (addr : Nat)
    (n pk sig : String) (s' : ServerState) (rs : List Reply) (K : Nat)
    (h : handle_hello fns s addr n pk sig = some (s', rs))
    (hmem : Reply.helloFailed n (Reason.pow_too_weak K) ∈ rs) :
    K = s.pow_required_bits ∧
    ∃ b, leading_zero_bits (fns.hashFn n pk) = some b ∧ b < K := by
  simp only [handle_hello] at h
  split at h
  · cases h; simp at hmem
  · split at h
    · cases h; simp at hmem
    · split at h
      · cases h; simp at hmem
      · split at h
        · cases h; simp at hmem
        · split at h
          · cases h; simp at hmem
          · split at h
            · cases h; simp at hmem
            · split at h
              · cases h; simp at hmem
              · split at h
                · exact absurd h (by simp)
                · next ok heq =>
                    split at h
                    · next hok =>
                        cases h
                        simp only [List.mem_singleton, Reply.helloFailed.injEq,
                          Reason.pow_too_weak.injEq, true_and] at hmem
                        subst hmem
                        refine ⟨rfl, ?_⟩
                        unfold check_difficulty at heq
                        split at heq
                        · injection heq with h0
                          rw [← h0] at hok
                          exact absurd rfl hok
                        · rcases Option.map_eq_some'.mp heq with ⟨b, hb, hf⟩
                          refine ⟨b, hb, ?_⟩
                          rcases Bool.eq_false_or_eq_true ok with hokv | hokv
                          · exact absurd hokv hok
                          · rw [hokv] at hf
                            have := of_decide_eq_false hf
                            omega
                    · split at h
                      · injection h with h'
                        injection h' with hA hB
                        subst hB
                        simp at hmem
                      · split at h
                        · exact absurd h (by simp)
                        · injection h with h'
                          injection h' with hA hB
                          subst hB
                          rcases List.mem_cons.mp hmem with hr | hr
                          · simp at hr
                          · rcases mem_helloBroadcast hr with ⟨m, hr'⟩
                            simp at hr'

/-- Witness for C8 at a concrete rejected hello: difficulty 8, a hash with
0 leading zero bits. -/
theorem pow_rejection_sound_witness :
    (8 = serverPowW.pow_required_bits) ∧
    ∃ b, leading_zero_bits (helloFnsW.hashFn "a" pkHexW) = some b ∧ b < 8 :=
  pow_rejection_sound helloFnsW serverPowW 0 "a" pkHexW sigHexW serverPowW
    [Reply.helloFailed "a" (Reason.pow_too_weak 8)] 8 (by decide) (by decide)

/-! ### C2 -/

/-- C2: nick-binding immutability.  (1) `NICK` never mutates the binding
table; (2) a non-panicking `handle_hello` preserves every existing
binding; (3) a `VOIRC_HELLO` for a nick bound to a different pubkey leaves
the table unchanged and answers with `HELLO_FAILED` or the 433 line;
(4) a `NICK` for a nick bound to a pubkey differing from the client's
leaves the state unchanged and answers 433. -/
theorem nick_binding_immutable (fns : HelloFns) (s : ServerState) (addr : Nat)
    (new_nick n pk sig : String) :
    (∀ s' rs, nickCmd s addr new_nick = (s', rs) →
      s'.nick_pubkeys = s.nick_pubkeys) ∧
    (∀ s' rs, handle_hello fns s addr n pk sig = some (s', rs) →
      ∀ n0 pk0, s.nick_pubkeys.lookup n0 = some pk0 →
        s'.nick_pubkeys.lookup n0 = some pk0) ∧
    (∀ s' rs pk0, handle_hello fns s addr n pk sig = some (s', rs) →
      s.nick_pubkeys.lookup n = some pk0 → pk ≠ pk0 →
      s'.nick_pubkeys = s.nick_pubkeys ∧
      ((∃ reason, Reply.helloFailed n reason ∈ rs) ∨ Reply.nickInUse n ∈ rs)) ∧
    (∀ s' rs pk1, nickCmd s addr new_nick = (s', rs) →
      s.nick_pubkeys.lookup new_nick = some pk1 →
      ((s.clients.lookup addr).bind (fun c => c.pubkey)) ≠ some pk1 →
      s' = s ∧ rs = [Reply.nickInUse new_nick]) := by
  refine ⟨?_, ?_, ?_, ?_⟩
  · intro s' rs hcmd
    simp only [nickCmd] at hcmd
    split at hcmd
    · split at hcmd
      · injection hcmd with hA hB
        subst hA
        rfl
      · injection hcmd with hA hB
        subst hA
        rfl
    · injection hcmd with hA hB
      subst hA
      rfl
  · intro s' rs h n0 pk0 h0
    rcases handle_hello_cases fns s addr n pk sig s' rs h with ⟨heq, _⟩ | ⟨hbind, heq, _⟩
    · rw [heq]; exact h0
    · by_cases hn : n0 = n
      · subst hn
        have hpk : pk = pk0 := by
          simp only [try_bind_nick_pubkey, h0] at hbind
          by_cases hc : pk0 ≠ pk
          · rw [if_pos hc] at hbind
            simp at hbind
          · push_neg at hc
            exact hc.symm
        rw [heq, lookup_insertA_self, hpk]
      · rw [heq, lookup_insertA_ne _ _ hn]
        exact h0
  · intro s' rs pk0 h h0 hpk
    rcases handle_hello_cases fns s addr n pk sig s' rs h with ⟨heq, hrep⟩ | ⟨hbind, _, _⟩
    · refine ⟨heq, ?_⟩
      rcases hrep with ⟨reason, rfl⟩ | rfl
      · exact Or.inl ⟨reason, by simp⟩
      · exact Or.inr (by simp)
    · exfalso
      simp only [try_bind_nick_pubkey, h0] at hbind
      rw [if_pos (Ne.symm hpk)] at hbind
      simp at hbind
  · intro s' rs pk1 hcmd h0 hne
    simp only [nickCmd] at hcmd
    split at hcmd
    · next bound_key heq =>
        have hbk : bound_key = pk1 := by
          rw [heq] at h0
          injection h0
        subst hbk
        rw [if_pos hne] at hcmd
        injection hcmd with hA hB
        exact ⟨hA.symm, hB.symm⟩
    · next heq =>
        rw [heq] at h0
        exact absurd h0 (by simp)

/-- Witness for C2 at a concrete session: nick `bob` bound to pubkey `11`,
a second client with a different key attempts `NICK bob` and a
`VOIRC_HELLO` carrying another pubkey. -/
theorem nick_binding_immutable_witness :
    ((serverBindW.clients.lookup 0).bind (fun c => c.pubkey)) ≠ some "11" ∧
    (serverBindW = serverBindW ∧
      [Reply.nickInUse "bob"] = [Reply.nickInUse "bob"]) ∧
    (serverBindW.nick_pubkeys = serverBindW.nick_pubkeys ∧
      ((∃ reason, Reply.helloFailed "bob" reason ∈ [Reply.nickInUse "bob"]) ∨
        Reply.nickInUse "bob" ∈ [Reply.nickInUse "bob"])) := by
  have h := nick_binding_immutable helloFnsW serverBindW 0 "bob" "bob" pkHexW sigHexW
  refine ⟨by decide, ?_, ?_⟩
  · exact h.2.2.2 serverBindW [Reply.nickInUse "bob"] "11" (by decide) (by decide) (by decide)
  · exact h.2.2.1 serverBindW [Reply.nickInUse "bob"] "11" (by decide) (by decide) (by decide)

/-! ### C1 -/

theorem asStrEach_map (xs : List String) : asStrEach (xs.map Json.str) = some xs := by
  induction xs with
  | nil => rfl
  | cons x xs ih => simp [asStrEach, asStr, ih]

/-- C1: descriptor round-trip.  For every valid `ConnectionInfo` — valid
meaning at least one channel (a parse never yields an empty channel list)
and ports in `u16` range (guaranteed by the Rust types) — parsing the
encoded wire document yields the descriptor back; the two optional fields
appear in the wire object exactly when they are `Some`; and the wire
object never carries a `pow_required_bits` key (the struct has no such
field, i.e. it is implicitly 0 and always omitted). -/
theorem descriptor_round_trip (D : ConnectionInfo)
    (hch : D.channels ≠ [])
    (hport : D.port < 65536)
    (hrelay : ∀ p, D.relay_port = some p → p < 65536) :
    from_magic_link (to_magic_link D) = some D ∧
    jHasKey (to_magic_link D) "cert_fingerprint" = D.cert_fingerprint.isSome ∧
    jHasKey (to_magic_link D) "relay_port" = D.relay_port.isSome ∧
    jHasKey (to_magic_link D) "pow_required_bits" = false := by
  obtain ⟨host, port, channels, cert, relay⟩ := D
  simp only at hch hport hrelay
  cases cert with
  | none =>
    cases relay with
    | none =>
      refine ⟨?_, by simp [to_magic_link, jHasKey, List.lookup],
        by simp [to_magic_link, jHasKey, List.lookup],
        by simp [to_magic_link, jHasKey, List.lookup]⟩
      simp [to_magic_link, from_magic_link, parseRaw, jsonField, List.lookup,
        asStr, asU16, asStrList, asStrEach_map, hport, hch, Option.bind]
    | some p =>
      have hp : p < 65536 := hrelay p rfl
      refine ⟨?_, by simp [to_magic_link, jHasKey, List.lookup],
        by simp [to_magic_link, jHasKey, List.lookup],
        by simp [to_magic_link, jHasKey, List.lookup]⟩
      simp [to_magic_link, from_magic_link, parseRaw, jsonField, List.lookup,
        asStr, asU16, asStrList, asStrEach_map, hport, hp, hch, Option.bind]
  | some f =>
    cases relay with
    | none =>
      refine ⟨?_, by simp [to_magic_link, jHasKey, List.lookup],
        by simp [to_magic_link, jHasKey, List.lookup],
        by simp [to_magic_link, jHasKey, List.lookup]⟩
      simp [to_magic_link, from_magic_link, parseRaw, jsonField, List.lookup,
        asStr, asU16, asStrList, asStrEach_map, hport, hch, Option.bind]
    | some p =>
      have hp : p < 65536 := hrelay p rfl
      refine ⟨?_, by simp [to_magic_link, jHasKey, List.lookup],
        by simp [to_magic_link, jHasKey, List.lookup],
        by simp [to_magic_link, jHasKey, List.lookup]⟩
      simp [to_magic_link, from_magic_link, parseRaw, jsonField, List.lookup,
        asStr, asU16, asStrList, asStrEach_map, hport, hp, hch, Option.bind]

/-- Witness for C1 at a concrete descriptor carrying both optional
fields. -/
theorem descriptor_round_trip_witness :
    from_magic_link (to_magic_link connW) = some connW ∧
    jHasKey (to_magic_link connW) "cert_fingerprint" = connW.cert_fingerprint.isSome ∧
    jHasKey (to_magic_link connW) "relay_port" = connW.relay_port.isSome ∧
    jHasKey (to_magic_link connW) "pow_required_bits" = false :=
  descriptor_round_trip connW (by decide) (by decide)
    (fun p hp => by
      have : p = 6668 := by
        have h6 : connW.relay_port = some 6668 := rfl
        rw [h6] at hp
        injection hp with h7
        exact h7.symm
      omega)

/-! ### C6 lemmas -/

/-- `utf8Classify` reports `done` only on empty input. -/
theorem utf8Classify_done : ∀ l : List Nat, utf8Classify l = .done → l = [] := by
  intro l h
  cases l with
  | nil => rfl
  | cons b rest =>
    exfalso
    simp only [utf8Classify] at h
    repeat' split at h
    all_goals simp at h

/-- A valid scalar sequence consumes at least one byte of a nonempty
input. -/
theorem utf8Classify_ok_pos : ∀ (l : List Nat) (k : Nat),
    utf8Classify l = .ok k → 1 ≤ k ∧ l ≠ [] := by
  intro l k h
  cases l with
  | nil => simp [utf8Classify] at h
  | cons b rest =>
    refine ⟨?_, by simp⟩
    simp only [utf8Classify] at h
    repeat' split at h
    all_goals first
      | (injection h with hk; omega)
      | simp at h

/-- `from_utf8_lossy` is the identity on valid UTF-8. -/
theorem utf8Lossy_of_valid_aux :
    ∀ (n : Nat) (l : List Nat), l.length ≤ n →
      utf8ValidAux n l = true → utf8LossyAux n l = l := by
  intro n
  induction n with
  | zero =>
    intro l hl _
    have : l = [] := List.eq_nil_of_length_eq_zero (Nat.le_zero.mp hl)
    subst this
    rfl
  | succ n ih =>
    intro l hl hv
    simp only [utf8ValidAux] at hv
    simp only [utf8LossyAux]
    cases hcl : utf8Classify l with
    | done =>
      simp only [hcl]
      exact (utf8Classify_done l hcl).symm
    | ok k =>
      simp only [hcl] at hv ⊢
      obtain ⟨hk, hne⟩ := utf8Classify_ok_pos l k hcl
      have hpos : 1 ≤ l.length := List.length_pos.mpr hne
      rw [ih (l.drop k) (by simp only [List.length_drop]; omega) hv]
      exact List.take_append_drop k l
    | err k =>
      simp only [hcl] at hv
      exact absurd hv (by simp)
    | trunc =>
      simp only [hcl] at hv
      exact absurd hv (by simp)

theorem utf8Lossy_of_valid {l : List Nat} (hv : utf8Valid l = true) : utf8Lossy l = l :=
  utf8Lossy_of_valid_aux l.length l (le_refl _) hv

/-- `insertA` with a fresh key appends. -/
theorem insertA_of_not_mem [DecidableEq κ] {k : κ} (v : α) {l : List (κ × α)}
    (h : k ∉ l.map Prod.fst) : insertA k v l = l ++ [(k, v)] := by
  induction l with
  | nil => rfl
  | cons p rest ih =>
    simp only [List.map_cons, List.mem_cons] at h
    push_neg at h
    simp [insertA, h.1, ih h.2]

/-- In an association list whose values are determined by a function of
the key, every present key looks up to that value. -/
theorem lookup_of_keyed [DecidableEq κ] [BEq κ] [LawfulBEq κ] {ch : κ → α}
    {P : List (κ × α)} (hP : ∀ q ∈ P, q.2 = ch q.1) {i : κ}
    (hi : i ∈ P.map Prod.fst) : P.lookup i = some (ch i) := by
  induction P with
  | nil => simp at hi
  | cons p rest ih =>
    by_cases hk : i = p.1
    · subst hk
      have := hP p (by simp)
      simp [List.lookup, this]
    · have hb : (i == p.1) = false := beq_eq_false_iff_ne.mpr hk
      simp only [List.map_cons, List.mem_cons] at hi
      rcases hi with hi | hi
      · exact absurd hi hk
      · simp [List.lookup, hb]
        exact ih (fun q hq => hP q (by simp [hq])) hi

/-- Flattening the 400-byte chunks restores the payload. -/
theorem chunks400Aux_flatten :
    ∀ (fuel : Nat) (l : List Nat), l.length ≤ fuel → (chunks400Aux fuel l).flatten = l := by
  intro fuel
  induction fuel with
  | zero =>
    intro l hl
    have : l = [] := List.eq_nil_of_length_eq_zero (Nat.le_zero.mp hl)
    subst this
    rfl
  | succ n ih =>
    intro l hl
    cases l with
    | nil => rfl
    | cons b rest =>
      simp only [chunks400Aux, List.flatten_cons]
      rw [ih ((b :: rest).drop 400) (by simp at hl ⊢; omega)]
      exact List.take_append_drop 400 (b :: rest)

theorem chunks400_flatten (l : List Nat) : (chunks400 l).flatten = l :=
  chunks400Aux_flatten l.length l (le_refl _)

/-- The number of 400-byte chunks is `⌈len / 400⌉`. -/
theorem chunks400Aux_length :
    ∀ (fuel : Nat) (l : List Nat), l.length ≤ fuel →
      (chunks400Aux fuel l).length = (l.length + 399) / 400 := by
  intro fuel
  induction fuel with
  | zero =>
    intro l hl
    have : l = [] := List.eq_nil_of_length_eq_zero (Nat.le_zero.mp hl)
    subst this
    rfl
  | succ n ih =>
    intro l hl
    cases l with
    | nil => rfl
    | cons b rest =>
      simp only [chunks400Aux, List.length_cons]
      rw [ih ((b :: rest).drop 400) (by simp at hl ⊢; omega)]
      simp only [List.length_drop, List.length_cons]
      omega

theorem chunks400_length (l : List Nat) :
    (chunks400 l).length = (l.length + 399) / 400 :=
  chunks400Aux_length l.length l (le_refl _)

theorem runFrags_cons_none {sender : String} {st st1 : FragState} {f : Frag}
    {fs : List Frag} (h : handle_fragment st sender f = (st1, none)) :
    runFrags sender st (f :: fs) = runFrags sender st1 fs := by
  simp only [runFrags, h]

theorem runFrags_cons_some {sender : String} {st st1 : FragState} {f : Frag}
    {fs : List Frag} {p : List Nat}
    (h : handle_fragment st sender f = (st1, some p)) :
    runFrags sender st (f :: fs) =
      ((runFrags sender st1 fs).1, p :: (runFrags sender st1 fs).2) := by
  simp only [runFrags, h]

/-- Core reassembly invariant: one in-flight `(sender, id)` message whose
chunks are `ch i` for sequence numbers `i`; processing the remaining
fragments — whose sequence numbers, together with the already-buffered
ones, are a permutation of `1..=N` — delivers exactly the chunks
concatenated in sequence order and leaves the map empty. -/
theorem runFrags_perm (sender id : String) (N : Nat) (ch : Nat → List Nat) :
    ∀ (fs : List Frag) (P : List (Nat × List Nat)),
      (∀ f ∈ fs, f.msg_id = id ∧ f.total = N ∧ f.chunk = ch f.seq) →
      (∀ q ∈ P, q.2 = ch q.1) →
      ((fs.map (fun f => f.seq)) ++ P.map Prod.fst).Perm (List.range' 1 N) →
      fs ≠ [] →
      runFrags sender (fragStOf sender id N P) fs =
        ([], [((List.range' 1 N).map ch).flatten]) := by
  intro fs
  induction fs with
  | nil => intro P _ _ _ hne; exact absurd rfl hne
  | cons f fs' ih =>
    intro P hf hP hperm _
    have hfid : f.msg_id = id := (hf f (by simp)).1
    have hftot : f.total = N := (hf f (by simp)).2.1
    have hfch : f.chunk = ch f.seq := (hf f (by simp)).2.2
    have hnd : ((f.seq :: fs'.map (fun f => f.seq)) ++ P.map Prod.fst).Nodup := by
      have h0 : ((f :: fs').map (fun f => f.seq) ++ P.map Prod.fst).Nodup :=
        hperm.nodup_iff.mpr (List.nodup_range' 1 N)
      simpa using h0
    have hnd' : (f.seq :: (fs'.map (fun f => f.seq) ++ P.map Prod.fst)).Nodup := by
      simpa using hnd
    have hseq_not : f.seq ∉ fs'.map (fun f => f.seq) ++ P.map Prod.fst :=
      (List.nodup_cons.mp hnd').1
    have hseq_notP : f.seq ∉ P.map Prod.fst := fun hc =>
      hseq_not (List.mem_append.mpr (Or.inr hc))
    have hbuf : (match (fragStOf sender id N P).lookup (sender, f.msg_id) with
                 | some b => b
                 | none => ({ parts := [], total := f.total } : FragmentBuffer)) =
        { parts := P, total := N } := by
      by_cases hPe : P.isEmpty
      · have hP0 : P = [] := List.isEmpty_iff.mp hPe
        subst hP0
        simp [fragStOf, List.lookup, hftot]
      · simp [fragStOf, hPe, List.lookup, hfid]
    have hparts : insertA f.seq f.chunk P = P ++ [(f.seq, f.chunk)] :=
      insertA_of_not_mem f.chunk hseq_notP
    have hkeys : (insertA f.seq f.chunk P).map Prod.fst = P.map Prod.fst ++ [f.seq] := by
      rw [hparts]; simp
    have hq : ∀ q ∈ insertA f.seq f.chunk P, q.2 = ch q.1 := by
      intro q hqm
      rw [hparts] at hqm
      rcases List.mem_append.mp hqm with hh | hh
      · exact hP q hh
      · have : q = (f.seq, f.chunk) := by simpa using hh
        rw [this, hfch]
    cases fs' with
    | nil =>
      have hlen : P.length + 1 = N := by
        have := hperm.length_eq
        simpa [List.length_range'] using this
      have hcomplete : (insertA f.seq f.chunk P).length =
          ({ parts := insertA f.seq f.chunk P, total := N } : FragmentBuffer).total := by
        rw [hparts]
        simp
        omega
      have hmemkeys : ∀ i ∈ List.range' 1 N, i ∈ (insertA f.seq f.chunk P).map Prod.fst := by
        intro i hi
        rw [hkeys]
        have : i ∈ (f.seq :: ([] : List Frag).map (fun f => f.seq)) ++ P.map Prod.fst := by
          have h0 : i ∈ ((f :: []).map (fun f => f.seq) ++ P.map Prod.fst) :=
            hperm.mem_iff.mpr hi
          simpa using h0
        simp only [List.map_nil, List.nil_append, List.cons_append] at this
        rcases List.mem_cons.mp this with rfl | hh
        · exact List.mem_append.mpr (Or.inr (by simp))
        · exact List.mem_append.mpr (Or.inl hh)
      have hfull : (List.range' 1 N).map
            (fun i => ((insertA f.seq f.chunk P).lookup i).getD []) =
          (List.range' 1 N).map ch := by
        refine List.map_congr_left ?_
        intro i hi
        rw [lookup_of_keyed hq (hmemkeys i hi)]
        rfl
      have hrem : removeA (sender, f.msg_id) (fragStOf sender id N P) = [] := by
        by_cases hPe : P.isEmpty
        · have hP0 : P = [] := List.isEmpty_iff.mp hPe
          subst hP0
          simp [fragStOf, removeA]
        · simp [fragStOf, hPe, removeA, hfid]
      have hhf : handle_fragment (fragStOf sender id N P) sender f =
          ([], some (((List.range' 1 N).map ch).flatten)) := by
        simp only [handle_fragment, hbuf]
        rw [if_pos hcomplete, hrem, hfull]
      rw [runFrags_cons_some hhf]
      rfl
    | cons g gs =>
      have hlt : ¬ ((insertA f.seq f.chunk P).length =
          ({ parts := insertA f.seq f.chunk P, total := N } : FragmentBuffer).total) := by
        have hlen := hperm.length_eq
        simp only [List.length_append, List.length_map, List.length_range',
          List.length_cons] at hlen
        rw [hparts]
        simp only [List.length_append, List.length_cons, List.length_nil]
        omega
      have hne' : insertA f.seq f.chunk P ≠ [] := by
        rw [hparts]
        simp
      have hst1 : insertA (sender, f.msg_id)
            ({ parts := insertA f.seq f.chunk P, total := N } : FragmentBuffer)
            (fragStOf sender id N P) =
          fragStOf sender id N (insertA f.seq f.chunk P) := by
        by_cases hPe : P.isEmpty
        · have hP0 : P = [] := List.isEmpty_iff.mp hPe
          subst hP0
          simp [fragStOf, insertA, hfid, List.isEmpty_iff, hne']
        · simp [fragStOf, hPe, insertA, hfid, List.isEmpty_iff, hne']
      have hhf : handle_fragment (fragStOf sender id N P) sender f =
          (fragStOf sender id N (insertA f.seq f.chunk P), none) := by
        simp only [handle_fragment, hbuf]
        rw [if_neg hlt, hst1]
      have hperm' : ((g :: gs).map (fun f => f.seq) ++
            (insertA f.seq f.chunk P).map Prod.fst).Perm (List.range' 1 N) := by
        refine List.Perm.trans ?_ hperm
        rw [hkeys, ← List.append_assoc]
        have h1 := List.perm_append_singleton f.seq
          ((g :: gs).map (fun f => f.seq) ++ P.map Prod.fst)
        simpa using h1
      have hrec := ih (insertA f.seq f.chunk P)
        (fun x hx => hf x (by simp [hx]))
        hq hperm' (by simp)
      rw [runFrags_cons_none hhf]
      exact hrec

/-! ### C6 -/

/-- C6 amended: fragment-reassembly round-trip.  Feeding the fragments
produced by `send_webrtc_signal` through `handle_fragment` in any arrival
order delivers exactly one `WebRtcSignal` payload equal to the original
one and leaves the buffer map empty — provided the payload is nonempty and
no multi-byte UTF-8 character straddles a 400-byte chunk boundary (each
chunk valid UTF-8, so `from_utf8_lossy` leaves it intact); see the
counterexample for a straddling payload. -/
theorem fragment_reassembly_roundtrip (sender msg_id : String) (payload : List Nat)
    (order : List Frag) (hne : payload ≠ [])
    (hvalid : ∀ c ∈ chunks400 payload, utf8Valid c = true)
    (hperm : order.Perm (send_webrtc_signal msg_id payload)) :
    runFrags sender [] order = ([], [payload]) := by
  have hchlen : (chunks400 payload).length = (payload.length + 399) / 400 :=
    chunks400_length payload
  have hNpos : 1 ≤ (payload.length + 399) / 400 := by
    have : 0 < payload.length := List.length_pos.mpr hne
    omega
  have hsend : ∀ f ∈ send_webrtc_signal msg_id payload,
      f.msg_id = msg_id ∧ f.total = (payload.length + 399) / 400 ∧
        f.chunk = (fun i => (chunks400 payload).getD (i - 1) []) f.seq := by
    intro f hf
    simp only [send_webrtc_signal] at hf
    rcases List.mem_map.mp hf with ⟨p, hp, rfl⟩
    obtain ⟨i, c⟩ := p
    have hic : (chunks400 payload)[i]? = some c := List.mk_mem_enum_iff_getElem?.mp hp
    refine ⟨rfl, rfl, ?_⟩
    have hc : c ∈ chunks400 payload := List.snd_mem_of_mem_enum hp
    simp only
    rw [utf8Lossy_of_valid (hvalid c hc)]
    simp only [Nat.add_sub_cancel]
    rw [List.getD_eq_getElem?_getD, hic]
    rfl
  have hmapseq : (order.map (fun f => f.seq) ++
        ([] : List (Nat × List Nat)).map Prod.fst).Perm
      (List.range' 1 ((payload.length + 399) / 400)) := by
    simp only [List.map_nil, List.append_nil]
    refine List.Perm.trans (hperm.map (fun f => f.seq)) ?_
    have hmeq : (send_webrtc_signal msg_id payload).map (fun f => f.seq) =
        List.range' 1 ((payload.length + 399) / 400) := by
      simp only [send_webrtc_signal, List.map_map]
      have h2 : ((fun f : Frag => f.seq) ∘ (fun p : Nat × List Nat =>
          ({ seq := p.1 + 1, total := (payload.length + 399) / 400,
             msg_id := msg_id, chunk := utf8Lossy p.2 } : Frag))) =
          ((fun x : Nat => 1 + x) ∘ Prod.fst) := by
        funext p
        simp [Function.comp]
        omega
      rw [h2, ← List.map_map, List.enum_map_fst, List.range_eq_range']
      have h3 := List.map_add_range' 1 0 (chunks400 payload).length 1
      simp only [Nat.add_zero] at h3
      rw [h3, hchlen]
    rw [hmeq]
  have hordne : order ≠ [] := by
    intro h0
    rw [h0] at hperm
    have hlen := hperm.length_eq
    simp only [List.length_nil, send_webrtc_signal, List.length_map,
      List.enum_length] at hlen
    rw [hchlen] at hlen
    omega
  have hmain := runFrags_perm sender msg_id ((payload.length + 399) / 400)
    (fun i => (chunks400 payload).getD (i - 1) []) order []
    (fun f hf => hsend f (hperm.mem_iff.mp hf)) (by simp) hmapseq hordne
  have hst0 : fragStOf sender msg_id ((payload.length + 399) / 400) [] = [] := rfl
  rw [hst0] at hmain
  rw [hmain]
  have hmc : (List.range' 1 ((payload.length + 399) / 400)).map
      (fun i => (chunks400 payload).getD (i - 1) []) = chunks400 payload := by
    apply List.ext_getElem
    · simp [hchlen]
    · intro i h1 h2
      simp only [List.getElem_map, List.getElem_range']
      rw [List.getD_eq_getElem?_getD]
      have hi : 1 + 1 * i - 1 = i := by omega
      rw [hi, List.getElem?_eq_getElem h2]
      rfl
  rw [hmc, chunks400_flatten]

set_option maxRecDepth 100000 in
/-- C6 counterexample: the round-trip fails as stated.  For the 401-byte
payload of 399 ASCII bytes followed by the two-byte character U+00E9, the
sender's 400-byte chunking splits the character across chunks;
`String::from_utf8_lossy` replaces both halves with U+FFFD, so reassembling
all chunks (in order) does not reproduce the original payload. -/
theorem fragment_roundtrip_utf8_boundary :
    (runFrags "s" [] (send_webrtc_signal "w1" payloadBadW)).2 ≠ [payloadBadW] := by
  decide

/-- Witness for C6's amended round-trip at a concrete two-byte ASCII
payload delivered in order. -/
theorem fragment_reassembly_roundtrip_witness :
    runFrags "s" [] (send_webrtc_signal "w2" [104, 105]) = ([], [[104, 105]]) :=
  fragment_reassembly_roundtrip "s" "w2" [104, 105]
    (send_webrtc_signal "w2" [104, 105]) (by decide) (by decide) (List.Perm.refl _)

/-! ### C4 -/

/-- If the already-matched marker `q` rules out marker `p` (neither is a
prefix of the other), the `p` branch of the dispatcher does not fire. -/
theorem dropPfx_none_of (p q s : String)
    (hpq : ¬ (p.data <+: q.data ∨ q.data <+: p.data))
    (hq : q.data.isPrefixOf s.data = true) : dropPfx p s = none := by
  have hfalse : p.data.isPrefixOf s.data = false := by
    by_contra hc
    rw [Bool.not_eq_false] at hc
    exact hpq (List.prefix_or_prefix_of_prefix (List.isPrefixOf_iff_prefix.mp hc)
      (List.isPrefixOf_iff_prefix.mp hq))
  simp [dropPfx, hfalse]

/-- C4 amended: the silent-drop rule for senders without a locally bound
pubkey holds for `WRTC:`, `VOIRC_ROLE:`, `VOIRC_MOD:`, `VOIRC_SYNC_REQ:`
and `VOIRC_SYNC_RESP:` — the handler returns with no event, no outbound
send and no state change — but (see the counterexample) not for `SIGNED:`,
which carries no such gate. -/
theorem unverified_drop_rule {σ : Type} (fns : ClientFns σ) (st : ClientState σ)
    (nick target text : String)
    (hunv : pubkey_for_nick st.peer_pubkeys nick = none)
    (hpfx : "WRTC:".data.isPrefixOf text.data = true ∨
            "VOIRC_ROLE:".data.isPrefixOf text.data = true ∨
            "VOIRC_MOD:".data.isPrefixOf text.data = true ∨
            "VOIRC_SYNC_REQ:".data.isPrefixOf text.data = true ∨
            "VOIRC_SYNC_RESP:".data.isPrefixOf text.data = true) :
    handle_privmsg fns st nick target text = (st, [], []) := by
  rcases hpfx with h | h | h | h | h
  · have h1 := dropPfx_none_of "VOIRC_PUBKEY:" "WRTC:" text (by decide) h
    have h2 := dropPfx_none_of "VOIRC_POW_REQUIRED:" "WRTC:" text (by decide) h
    have h3 := dropPfx_none_of "VOIRC_HELLO:" "WRTC:" text (by decide) h
    have hW : dropPfx "WRTC:" text =
        some (String.mk (text.data.drop "WRTC:".data.length)) := by
      simp [dropPfx, h]
    simp [handle_privmsg, h1, h2, h3, hW, hunv]
  · have h1 := dropPfx_none_of "VOIRC_PUBKEY:" "VOIRC_ROLE:" text (by decide) h
    have h2 := dropPfx_none_of "VOIRC_POW_REQUIRED:" "VOIRC_ROLE:" text (by decide) h
    have h3 := dropPfx_none_of "VOIRC_HELLO:" "VOIRC_ROLE:" text (by decide) h
    have h4 := dropPfx_none_of "WRTC:" "VOIRC_ROLE:" text (by decide) h
    have hW : dropPfx "VOIRC_ROLE:" text =
        some (String.mk (text.data.drop "VOIRC_ROLE:".data.length)) := by
      simp [dropPfx, h]
    simp [handle_privmsg, h1, h2, h3, h4, hW, hunv]
  · have h1 := dropPfx_none_of "VOIRC_PUBKEY:" "VOIRC_MOD:" text (by decide) h
    have h2 := dropPfx_none_of "VOIRC_POW_REQUIRED:" "VOIRC_MOD:" text (by decide) h
    have h3 := dropPfx_none_of "VOIRC_HELLO:" "VOIRC_MOD:" text (by decide) h
    have h4 := dropPfx_none_of "WRTC:" "VOIRC_MOD:" text (by decide) h
    have h5 := dropPfx_none_of "VOIRC_ROLE:" "VOIRC_MOD:" text (by decide) h
    have hW : dropPfx "VOIRC_MOD:" text =
        some (String.mk (text.data.drop "VOIRC_MOD:".data.length)) := by
      simp [dropPfx, h]
    simp [handle_privmsg, h1, h2, h3, h4, h5, hW, hunv]
  · have h1 := dropPfx_none_of "VOIRC_PUBKEY:" "VOIRC_SYNC_REQ:" text (by decide) h
    have h2 := dropPfx_none_of "VOIRC_POW_REQUIRED:" "VOIRC_SYNC_REQ:" text (by decide) h
    have h3 := dropPfx_none_of "VOIRC_HELLO:" "VOIRC_SYNC_REQ:" text (by decide) h
    have h4 := dropPfx_none_of "WRTC:" "VOIRC_SYNC_REQ:" text (by decide) h
    have h5 := dropPfx_none_of "VOIRC_ROLE:" "VOIRC_SYNC_REQ:" text (by decide) h
    have h6 := dropPfx_none_of "VOIRC_MOD:" "VOIRC_SYNC_REQ:" text (by decide) h
    have hW : dropPfx "VOIRC_SYNC_REQ:" text =
        some (String.mk (text.data.drop "VOIRC_SYNC_REQ:".data.length)) := by
      simp [dropPfx, h]
    simp [handle_privmsg, h1, h2, h3, h4, h5, h6, hW, hunv]
  · have h1 := dropPfx_none_of "VOIRC_PUBKEY:" "VOIRC_SYNC_RESP:" text (by decide) h
    have h2 := dropPfx_none_of "VOIRC_POW_REQUIRED:" "VOIRC_SYNC_RESP:" text (by decide) h
    have h3 := dropPfx_none_of "VOIRC_HELLO:" "VOIRC_SYNC_RESP:" text (by decide) h
    have h4 := dropPfx_none_of "WRTC:" "VOIRC_SYNC_RESP:" text (by decide) h
    have h5 := dropPfx_none_of "VOIRC_ROLE:" "VOIRC_SYNC_RESP:" text (by decide) h
    have h6 := dropPfx_none_of "VOIRC_MOD:" "VOIRC_SYNC_RESP:" text (by decide) h
    have h7 := dropPfx_none_of "VOIRC_SYNC_REQ:" "VOIRC_SYNC_RESP:" text (by decide) h
    have hW : dropPfx "VOIRC_SYNC_RESP:" text =
        some (String.mk (text.data.drop "VOIRC_SYNC_RESP:".data.length)) := by
      simp [dropPfx, h]
    simp [handle_privmsg, h1, h2, h3, h4, h5, h6, h7, hW, hunv]

/-- Witness for C4's amended drop rule at a concrete unverified `WRTC:`
message. -/
theorem unverified_drop_rule_witness :
    handle_privmsg clientFnsW clientStW "mallory" "#general" "WRTC:z" =
      (clientStW, [], []) :=
  unverified_drop_rule clientFnsW clientStW "mallory" "#general" "WRTC:z"
    (by decide) (Or.inl (by decide))

/-- C4 counterexample: a `SIGNED:` message from a sender whose nick has no
locally bound pubkey is NOT silently dropped.  With the JSON parse
returning a message and its ed25519 signature valid (both external
operations), the handler appends to the message log and emits a
`ChatMessage` event — the `SIGNED:` branch (irc_client.rs lines 492-518)
only compares pubkeys when one is already known and never calls
`is_verified`. -/
theorem unverified_signed_not_dropped :
    pubkey_for_nick clientStW.peer_pubkeys "mallory" = none ∧
    (handle_privmsg clientFnsW clientStW "mallory" "#general" "SIGNED:x").2.1 =
      [Event.ChatMessage "#general" "mallory" "hi"] ∧
    (handle_privmsg clientFnsW clientStW "mallory" "#general" "SIGNED:x").1.message_log ≠
      clientStW.message_log := by decide

end Voirc
